import Mathlib

/-!
# fs-25-save-editor: verification of the structural patch engine and save orchestrator

Shallow embedding of the Rust sources under `src/src-tauri/src`:
XML documents are modelled at the token level (the data model of the spec, §3):
a document is a list of tokens (element-open with an ordered attribute list,
element-close, fused empty element, text, and a catch-all for declarations /
comments which the writers treat uniformly).  The `quick_xml` Reader/Writer
layer (an external crate, not part of the repository's sources) is modelled as
the identity on tokens; XML entity escaping is outside the model: attribute
values are abstract strings.

Numeric `f64` fields are modelled as rationals; Rust's `format!("{:.6}", x)`
is modelled by `fmt6` (round half to even at the 6th decimal, which is the
behaviour of Rust's formatter on the exact binary value), `x as i64` by
`truncQ` (truncation toward zero; saturation at the i64 bounds is not
modelled, the values of interest are small).  `str::parse::<uN>()` is
modelled by `parseU32D` / `parseU8D` (a leading `+` sign, which Rust accepts,
is not modelled; no input in this development uses one).

`u32` depth counters are modelled by `Nat`; Rust's wrapping/panicking
subtraction at 0 differs from `Nat` truncated subtraction only on documents
whose end tags outnumber their start tags, which the upstream parser rejects.
-/

set_option autoImplicit false

namespace FS25

/-- An XML token, the unit the streaming writers operate on
(`quick_xml::events::Event`): `start` = `Event::Start`, `empty` =
`Event::Empty`, `close` = `Event::End`, `text` = `Event::Text`, `other`
covers the remaining event kinds (declaration, comment, CData, PI), which
every writer handles through the same catch-all arm as text. -/
inductive Token where
  | start (tag : String) (attrs : List (String × String))
  | empty (tag : String) (attrs : List (String × String))
  | close (tag : String)
  | text  (s : String)
  | other (s : String)
  deriving DecidableEq, Repr

/-- `attr_str`: value of the attribute `key`, or `""` when absent
(`unwrap_or_default`). -/
def attrD (attrs : List (String × String)) (key : String) : String :=
  match attrs.find? (fun a => a.1 = key) with
  | some a => a.2
  | none => ""

/-- Decimal value of the character list (digits assumed). -/
def parseNatCore (cs : List Char) : Nat :=
  cs.foldl (fun acc c => acc * 10 + (c.toNat - 48)) 0

/-- `str::parse::<uN>()` up to the range check: `some` on a non-empty
all-digit string, `none` otherwise. -/
def rustParseNat (s : String) : Option Nat :=
  if ¬ s.data = [] ∧ s.data.all (fun c => c.isDigit) then some (parseNatCore s.data)
  else none

/-- `s.parse::<u32>().unwrap_or(u32::MAX)`. -/
def parseU32D (s : String) : Nat :=
  match rustParseNat s with
  | some n => if n < 4294967296 then n else 4294967295
  | none => 4294967295

/-- `s.parse::<u8>().unwrap_or(0)`. -/
def parseU8D (s : String) : Nat :=
  match rustParseNat s with
  | some n => if n < 256 then n else 0
  | none => 0

/-- The six decimal digits of `n % 10^6`, zero padded. -/
def digits6 (n : Nat) : String :=
  String.mk [Nat.digitChar (n / 100000 % 10), Nat.digitChar (n / 10000 % 10),
             Nat.digitChar (n / 1000 % 10), Nat.digitChar (n / 100 % 10),
             Nat.digitChar (n / 10 % 10), Nat.digitChar (n % 10)]

/-- Round a nonnegative rational, scaled by 10^6, to the nearest integer,
half to even. -/
def round6abs (x : ℚ) : Nat :=
  let y := x * 1000000
  let f : ℤ := ⌊y⌋
  if y - f < 1/2 then f.toNat
  else if (1:ℚ)/2 < y - f then (f + 1).toNat
  else if f % 2 = 0 then f.toNat else (f + 1).toNat

/-- `format!("{:.6}", x)`: fixed 6 decimal digits. -/
def fmt6 (q : ℚ) : String :=
  let m := round6abs (if q < 0 then -q else q)
  (if q < 0 then "-" else "") ++ toString (m / 1000000) ++ "." ++ digits6 m

/-- `x as i64`: truncation toward zero. -/
def truncQ (q : ℚ) : ℤ :=
  if 0 ≤ q then ⌊q⌋ else -⌊-q⌋

/-! ## The change model (`models/changes.rs`) -/

/-- `models/changes.rs::FillUnitChange`. -/
structure FillUnitChange where
  index : Nat
  fill_level : ℚ
  deriving DecidableEq, Repr

/-- `models/changes.rs::VehicleChange`. -/
structure VehicleChange where
  unique_id : String
  delete : Bool
  age : Option ℚ
  price : Option ℚ
  farm_id : Option Nat
  property_state : Option String
  operating_time : Option ℚ
  damage : Option ℚ
  wear : Option ℚ
  fill_units : Option (List FillUnitChange)
  deriving DecidableEq, Repr

/-- `models/changes.rs::SaleChange`. -/
structure SaleChange where
  index : Nat
  delete : Bool
  price : Option Nat
  damage : Option ℚ
  wear : Option ℚ
  age : Option Nat
  operating_time : Option ℚ
  time_left : Option Nat
  deriving DecidableEq, Repr

/-- `models/changes.rs::SaleAddition`. -/
structure SaleAddition where
  xml_filename : String
  price : Nat
  damage : ℚ
  wear : ℚ
  age : Nat
  operating_time : ℚ
  time_left : Nat
  deriving DecidableEq, Repr

/-- `models/changes.rs::FinanceChanges`. -/
structure FinanceChanges where
  money : Option ℚ
  loan : Option ℚ
  deriving DecidableEq, Repr

/-- `models/changes.rs::GreatDemandChange`. -/
structure GreatDemandChange where
  index : Nat
  fill_type_name : Option String
  demand_multiplier : Option ℚ
  demand_start_day : Option Nat
  demand_start_hour : Option Nat
  demand_duration : Option Nat
  is_running : Option Bool
  is_valid : Option Bool
  deriving DecidableEq, Repr

/-- `models/changes.rs::GreatDemandAddition`. -/
structure GreatDemandAddition where
  unique_id : String
  fill_type_name : String
  demand_multiplier : ℚ
  demand_start_day : Nat
  demand_start_hour : Nat
  demand_duration : Nat
  deriving DecidableEq, Repr

/-- `models/changes.rs::EconomyChanges`. -/
structure EconomyChanges where
  great_demand_changes : Option (List GreatDemandChange)
  great_demand_additions : Option (List GreatDemandAddition)
  great_demand_deletions : Option (List Nat)
  deriving DecidableEq, Repr

/-- `models/changes.rs::LocalizedMessage` (from `models/common.rs`): an error
code plus named parameters, appended in `with_param` order. -/
structure LocalizedMessage where
  code : String
  params : List (String × String)
  deriving DecidableEq, Repr

/-- `LocalizedMessage::new(code).with_param("file", f).with_param("details", d)`
as built by `save_changes` for a failed writer. -/
def mkWriteErr (file details : String) : LocalizedMessage :=
  ⟨"errors.fileWriteError", [("file", file), ("details", details)]⟩

/-- `models/changes.rs::SaveResult`. -/
structure SaveResult where
  success : Bool
  backup_path : Option String
  files_modified : List String
  errors : List LocalizedMessage
  deriving DecidableEq, Repr

/-! ## The vehicle writer (`writers/vehicle.rs`) -/

/-- `writers/vehicle.rs::property_state_to_u8`. -/
def property_state_to_u8 (state : String) : String :=
  if state = "Owned" then "1"
  else if state = "Rented" then "2"
  else if state = "None" then "0"
  else "0"

/-- `writers/vehicle.rs::patch_vehicle_start`, per attribute: the rebuilt
element copies the attributes in order, overriding `age`, `price`, `farmId`,
`propertyState` and `operatingTime` when the change carries a value
(`operating_time` is converted from hours to minutes by the `* 60.0`). -/
def patchVehicleAttr (c : VehicleChange) (a : String × String) : String × String :=
  if a.1 = "age" ∧ c.age.isSome then ("age", fmt6 (c.age.getD 0))
  else if a.1 = "price" ∧ c.price.isSome then ("price", fmt6 (c.price.getD 0))
  else if a.1 = "farmId" ∧ c.farm_id.isSome then ("farmId", toString (c.farm_id.getD 0))
  else if a.1 = "propertyState" ∧ c.property_state.isSome then
    ("propertyState", property_state_to_u8 (c.property_state.getD ""))
  else if a.1 = "operatingTime" ∧ c.operating_time.isSome then
    ("operatingTime", fmt6 (c.operating_time.getD 0 * 60))
  else a

/-- `writers/vehicle.rs::patch_vehicle_start`. -/
def patch_vehicle_start (attrs : List (String × String)) (c : VehicleChange) :
    List (String × String) :=
  attrs.map (patchVehicleAttr c)

/-- `writers/vehicle.rs::patch_fill_unit`, per attribute: overrides
`fillLevel`, copies everything else. -/
def patchFillUnitAttr (fc : FillUnitChange) (a : String × String) : String × String :=
  if a.1 = "fillLevel" then ("fillLevel", fmt6 fc.fill_level) else a

/-- `writers/vehicle.rs::patch_fill_unit`. -/
def patch_fill_unit (attrs : List (String × String)) (fc : FillUnitChange) :
    List (String × String) :=
  attrs.map (patchFillUnitAttr fc)

/-- The `HashMap<&str, &VehicleChange>` built from the change list keyed by
`unique_id`; on duplicate keys the last insertion wins, hence the reversed
search. -/
def lookupVehicle (cs : List VehicleChange) (id : String) : Option VehicleChange :=
  cs.reverse.find? (fun c => c.unique_id = id)

/-- The mutable locals of the `write_vehicle_changes` event loop. -/
structure VehState where
  curId : Option String
  skip : Bool
  depth : Nat
  inFillUnit : Bool
  fill : Option (List FillUnitChange)
  deriving DecidableEq, Repr

/-- Initial state of the `write_vehicle_changes` loop. -/
def VehState.init : VehState :=
  ⟨none, false, 0, false, none⟩

/-- One iteration of the `write_vehicle_changes` event loop
(`writers/vehicle.rs` lines 36-140): new state plus emitted tokens. -/
def vehicle_step (cs : List VehicleChange) (s : VehState) : Token → VehState × List Token
  | .start tag attrs =>
    if s.skip then ({s with depth := s.depth + 1}, [])
    else if tag = "vehicle" then
      match lookupVehicle cs (attrD attrs "id") with
      | some c =>
        if c.delete then
          ({s with skip := true, depth := 1, curId := some (attrD attrs "id")}, [])
        else
          ({s with curId := some (attrD attrs "id"), fill := c.fill_units},
           [.start "vehicle" (patch_vehicle_start attrs c)])
      | none => ({s with curId := none, fill := none}, [.start tag attrs])
    else if tag = "fillUnit" ∧ s.curId.isSome then
      ({s with inFillUnit := true}, [.start tag attrs])
    else (s, [.start tag attrs])
  | .empty tag attrs =>
    if s.skip then (s, [])
    else if tag = "unit" ∧ s.inFillUnit then
      match s.fill with
      | some fcs =>
        match fcs.find? (fun f => f.index = parseU32D (attrD attrs "index")) with
        | some fc => (s, [.empty "unit" (patch_fill_unit attrs fc)])
        | none => (s, [.empty tag attrs])
      | none => (s, [.empty tag attrs])
    else (s, [.empty tag attrs])
  | .close tag =>
    if s.skip then
      if tag = "vehicle" then
        if s.depth - 1 = 0 then ({s with skip := false, depth := 0, curId := none}, [])
        else ({s with depth := s.depth - 1}, [])
      else ({s with depth := s.depth - 1}, [])
    else if tag = "vehicle" then ({s with curId := none, fill := none}, [.close tag])
    else if tag = "fillUnit" then ({s with inFillUnit := false}, [.close tag])
    else (s, [.close tag])
  | .text str => if s.skip then (s, []) else (s, [.text str])
  | .other str => if s.skip then (s, []) else (s, [.other str])

/-- The `write_vehicle_changes` event loop over a token list. -/
def vehicle_run (cs : List VehicleChange) (s : VehState) :
    List Token → VehState × List Token
  | [] => (s, [])
  | t :: ts =>
    let r := vehicle_step cs s t
    let r2 := vehicle_run cs r.1 ts
    (r2.1, r.2 ++ r2.2)

/-- `writers/vehicle.rs::write_vehicle_changes`, content transformation:
the token stream written to the output buffer. -/
def write_vehicle_changes (cs : List VehicleChange) (ts : List Token) : List Token :=
  (vehicle_run cs VehState.init ts).2

/-! ## The sale writer (`writers/sale.rs`) -/

/-- `writers/sale.rs::patch_item_start`, per attribute: overrides `price`,
`damage`, `wear`, `age`, `operatingTime` (hours to minutes via `* 60.0`) and
`timeLeft` when the change carries a value; copies everything else. -/
def patchItemAttr (c : SaleChange) (a : String × String) : String × String :=
  if a.1 = "price" ∧ c.price.isSome then ("price", toString (c.price.getD 0))
  else if a.1 = "damage" ∧ c.damage.isSome then ("damage", fmt6 (c.damage.getD 0))
  else if a.1 = "wear" ∧ c.wear.isSome then ("wear", fmt6 (c.wear.getD 0))
  else if a.1 = "age" ∧ c.age.isSome then ("age", toString (c.age.getD 0))
  else if a.1 = "operatingTime" ∧ c.operating_time.isSome then
    ("operatingTime", fmt6 (c.operating_time.getD 0 * 60))
  else if a.1 = "timeLeft" ∧ c.time_left.isSome then ("timeLeft", toString (c.time_left.getD 0))
  else a

/-- `writers/sale.rs::patch_item_start`. -/
def patch_item_start (attrs : List (String × String)) (c : SaleChange) :
    List (String × String) :=
  attrs.map (patchItemAttr c)

/-- The `HashMap<usize, &SaleChange>` keyed by `index`; last insertion wins. -/
def lookupSale (cs : List SaleChange) (i : Nat) : Option SaleChange :=
  cs.reverse.find? (fun c => c.index = i)

/-- The mutable locals of the `write_sale_changes` event loop. -/
structure SaleState where
  idx : Nat
  skip : Bool
  depth : Nat
  deriving DecidableEq, Repr

/-- Initial state of the `write_sale_changes` loop. -/
def SaleState.init : SaleState := ⟨0, false, 0⟩

/-- One iteration of the `write_sale_changes` event loop
(`writers/sale.rs` lines 33-91). -/
def sale_step (cs : List SaleChange) (s : SaleState) : Token → SaleState × List Token
  | .start tag attrs =>
    if s.skip then ({s with depth := s.depth + 1}, [])
    else if tag = "item" then
      match lookupSale cs s.idx with
      | some c =>
        if c.delete then ({s with idx := s.idx + 1, skip := true, depth := 1}, [])
        else ({s with idx := s.idx + 1}, [.start "item" (patch_item_start attrs c)])
      | none => ({s with idx := s.idx + 1}, [.start tag attrs])
    else (s, [.start tag attrs])
  | .close tag =>
    if s.skip then
      if tag = "item" then
        if s.depth - 1 = 0 then ({s with skip := false, depth := 0}, [])
        else ({s with depth := s.depth - 1}, [])
      else ({s with depth := s.depth - 1}, [])
    else (s, [.close tag])
  | .empty tag attrs => if s.skip then (s, []) else (s, [.empty tag attrs])
  | .text str => if s.skip then (s, []) else (s, [.text str])
  | .other str => if s.skip then (s, []) else (s, [.other str])

/-- The `write_sale_changes` event loop over a token list. -/
def sale_run (cs : List SaleChange) (s : SaleState) :
    List Token → SaleState × List Token
  | [] => (s, [])
  | t :: ts =>
    let r := sale_step cs s t
    let r2 := sale_run cs r.1 ts
    (r2.1, r.2 ++ r2.2)

/-- `writers/sale.rs::write_sale_changes`, content transformation. -/
def write_sale_changes (cs : List SaleChange) (ts : List Token) : List Token :=
  (sale_run cs SaleState.init ts).2

/-- `writers/sale.rs::format_sale_item`: the appended `<item .../>` element
(as a token; the textual line also carries the fixed indentation and
newline, which the token model does not represent). -/
def format_sale_item (a : SaleAddition) : Token :=
  .empty "item"
    [("xmlFilename", a.xml_filename), ("age", toString a.age),
     ("price", toString a.price), ("damage", fmt6 a.damage),
     ("wear", fmt6 a.wear), ("operatingTime", fmt6 (a.operating_time * 60)),
     ("timeLeft", toString a.time_left), ("isGenerated", "false")]

/-! ## The economy writer (`writers/economy.rs`) -/

/-- `writers/economy.rs::patch_great_demand`, per attribute. -/
def patchGreatDemandAttr (c : GreatDemandChange) (a : String × String) : String × String :=
  if a.1 = "fillTypeName" ∧ c.fill_type_name.isSome then
    ("fillTypeName", c.fill_type_name.getD "")
  else if a.1 = "demandMultiplier" ∧ c.demand_multiplier.isSome then
    ("demandMultiplier", fmt6 (c.demand_multiplier.getD 0))
  else if a.1 = "demandStartDay" ∧ c.demand_start_day.isSome then
    ("demandStartDay", toString (c.demand_start_day.getD 0))
  else if a.1 = "demandStartHour" ∧ c.demand_start_hour.isSome then
    ("demandStartHour", toString (c.demand_start_hour.getD 0))
  else if a.1 = "demandDuration" ∧ c.demand_duration.isSome then
    ("demandDuration", toString (c.demand_duration.getD 0))
  else if a.1 = "isRunning" ∧ c.is_running.isSome then
    ("isRunning", if c.is_running.getD false then "true" else "false")
  else if a.1 = "isValid" ∧ c.is_valid.isSome then
    ("isValid", if c.is_valid.getD false then "true" else "false")
  else a

/-- `writers/economy.rs::patch_great_demand`. -/
def patch_great_demand (attrs : List (String × String)) (c : GreatDemandChange) :
    List (String × String) :=
  attrs.map (patchGreatDemandAttr c)

/-- `writers/economy.rs::create_great_demand`. -/
def create_great_demand (a : GreatDemandAddition) : Token :=
  .empty "greatDemand"
    [("uniqueId", a.unique_id), ("fillTypeName", a.fill_type_name),
     ("demandMultiplier", fmt6 a.demand_multiplier),
     ("demandStartDay", toString a.demand_start_day),
     ("demandStartHour", toString a.demand_start_hour),
     ("demandDuration", toString a.demand_duration),
     ("isRunning", "false"), ("isValid", "true")]

/-- The `HashMap<usize, &GreatDemandChange>` keyed by `index`. -/
def lookupDemand (cs : List GreatDemandChange) (i : Nat) : Option GreatDemandChange :=
  cs.reverse.find? (fun c => c.index = i)

/-- The mutable locals of the `write_economy_changes` event loop. -/
structure EcoState where
  idx : Nat
  inGD : Bool
  skip : Bool
  deriving DecidableEq, Repr

/-- Initial state of the `write_economy_changes` loop. -/
def EcoState.init : EcoState := ⟨0, false, false⟩

/-- One iteration of the `write_economy_changes` event loop
(`writers/economy.rs` lines 43-123).  Faithful to the source, including the
arm order: a `greatDemand`/`greatDemands` start or empty tag is handled
before the skip flag is consulted, and an end tag other than `greatDemand`
(while skipping) or `greatDemands` is always emitted — during blank-delete
skip mode the end tags of the deleted element's children therefore leak into
the output. -/
def economy_step (cmap : List GreatDemandChange) (dels : List Nat)
    (adds : List GreatDemandAddition) (s : EcoState) : Token → EcoState × List Token
  | .start tag attrs =>
    if tag = "greatDemands" then
      ({s with inGD := true, idx := 0}, [.start tag attrs])
    else if tag = "greatDemand" ∧ s.inGD then
      if s.idx ∈ dels then
        ({s with skip := true, idx := s.idx + 1}, [.empty "greatDemand" []])
      else
        match lookupDemand cmap s.idx with
        | some c => ({s with idx := s.idx + 1}, [.start "greatDemand" (patch_great_demand attrs c)])
        | none => ({s with idx := s.idx + 1}, [.start tag attrs])
    else if s.skip then (s, []) else (s, [.start tag attrs])
  | .empty tag attrs =>
    if tag = "greatDemand" ∧ s.inGD then
      if s.idx ∈ dels then
        ({s with idx := s.idx + 1}, [.empty "greatDemand" []])
      else
        match lookupDemand cmap s.idx with
        | some c => ({s with idx := s.idx + 1}, [.empty "greatDemand" (patch_great_demand attrs c)])
        | none => ({s with idx := s.idx + 1}, [.empty tag attrs])
    else if s.skip then (s, []) else (s, [.empty tag attrs])
  | .close tag =>
    if tag = "greatDemand" ∧ s.skip then ({s with skip := false}, [])
    else if tag = "greatDemands" then
      ({s with inGD := false}, (adds.map create_great_demand) ++ [.close tag])
    else (s, [.close tag])
  | .text str => if s.skip then (s, []) else (s, [.text str])
  | .other str => if s.skip then (s, []) else (s, [.other str])

/-- The `write_economy_changes` event loop over a token list. -/
def economy_run (cmap : List GreatDemandChange) (dels : List Nat)
    (adds : List GreatDemandAddition) (s : EcoState) :
    List Token → EcoState × List Token
  | [] => (s, [])
  | t :: ts =>
    let r := economy_step cmap dels adds s t
    let r2 := economy_run cmap dels adds r.1 ts
    (r2.1, r.2 ++ r2.2)

/-- `writers/economy.rs::write_economy_changes`, content transformation.
The `unwrap_or_default` calls turn absent sub-lists into empty ones. -/
def write_economy_changes (ch : EconomyChanges) (ts : List Token) : List Token :=
  (economy_run (ch.great_demand_changes.getD []) (ch.great_demand_deletions.getD [])
    (ch.great_demand_additions.getD []) EcoState.init ts).2

/-! ## The career writer (`writers/career.rs`) -/

/-- A `statistics` attribute under `write_career_money`: `money` is replaced
by the 6-decimal serialization, everything else copied. -/
def patchMoneyAttr (money : ℚ) (a : String × String) : String × String :=
  if a.1 = "money" then ("money", fmt6 money) else a

/-- The mutable locals of the `write_career_money` event loop. -/
structure CareerState where
  inStatistics : Bool
  inMoney : Bool
  deriving DecidableEq, Repr

/-- Initial state of the `write_career_money` loop. -/
def CareerState.init : CareerState := ⟨false, false⟩

/-- One iteration of the `write_career_money` event loop
(`writers/career.rs` lines 29-102).  In the child-element dialect the money
text is replaced by `format!("{}", money as i64)` — the value truncated to an
integer — while in the attribute dialects the `money` attribute is replaced
by the 6-decimal `format!("{:.6}", money)`. -/
def career_step (money : ℚ) (s : CareerState) : Token → CareerState × List Token
  | .start tag attrs =>
    if tag = "statistics" then
      ({s with inStatistics := true}, [.start "statistics" (attrs.map (patchMoneyAttr money))])
    else if s.inStatistics ∧ tag = "money" then
      ({s with inMoney := true}, [.start tag attrs])
    else (s, [.start tag attrs])
  | .text str =>
    if s.inMoney then (s, [.text (toString (truncQ money))]) else (s, [.text str])
  | .close tag =>
    if tag = "money" ∧ s.inStatistics then ({s with inMoney := false}, [.close tag])
    else if tag = "statistics" then ({s with inStatistics := false}, [.close tag])
    else (s, [.close tag])
  | .empty tag attrs =>
    if tag = "statistics" then
      (s, [.empty "statistics" (attrs.map (patchMoneyAttr money))])
    else (s, [.empty tag attrs])
  | .other str => (s, [.other str])

/-- The `write_career_money` event loop over a token list. -/
def career_run (money : ℚ) (s : CareerState) : List Token → CareerState × List Token
  | [] => (s, [])
  | t :: ts =>
    let r := career_step money s t
    let r2 := career_run money r.1 ts
    (r2.1, r.2 ++ r2.2)

/-- `writers/career.rs::write_career_money`, content transformation. -/
def write_career_money (money : ℚ) (ts : List Token) : List Token :=
  (career_run money CareerState.init ts).2

/-! ## The farm writer (`writers/farm.rs`) -/

/-- A `farm` attribute under `write_farm_finances`: `money` and `loan` are
replaced by their 6-decimal serialization when requested. -/
def patchFarmAttr (money loan : Option ℚ) (a : String × String) : String × String :=
  if a.1 = "money" ∧ money.isSome then ("money", fmt6 (money.getD 0))
  else if a.1 = "loan" ∧ loan.isSome then ("loan", fmt6 (loan.getD 0))
  else a

/-- One event of `write_farm_finances` (`writers/farm.rs` lines 24-105):
only a start tag named `farm` whose `farmId` attribute parses to the target
id is rewritten; every other event passes through (the loop keeps no state
across events). -/
def farm_step (farmId : Nat) (money loan : Option ℚ) : Token → Token
  | .start tag attrs =>
    if tag = "farm" ∧ parseU8D (attrD attrs "farmId") = farmId then
      .start "farm" (attrs.map (patchFarmAttr money loan))
    else .start tag attrs
  | t => t

/-- `writers/farm.rs::write_farm_finances`, content transformation. -/
def write_farm_finances (farmId : Nat) (money loan : Option ℚ) (ts : List Token) :
    List Token :=
  ts.map (farm_step farmId money loan)

/-! ## Remaining change payloads (`models/changes.rs`, `models/environment.rs`) -/

/-- `models/changes.rs::FieldChange`. -/
structure FieldChange where
  id : Nat
  fruit_type : Option String
  planned_fruit : Option String
  growth_state : Option Nat
  ground_type : Option String
  weed_state : Option Nat
  stone_level : Option Nat
  spray_level : Option Nat
  spray_type : Option String
  lime_level : Option Nat
  plow_level : Option Nat
  roller_level : Option Nat
  stubble_shred_level : Option Nat
  water_level : Option Nat
  deriving DecidableEq, Repr

/-- `models/changes.rs::FarmlandChange`. -/
structure FarmlandChange where
  id : Nat
  farm_id : Nat
  deriving DecidableEq, Repr

/-- `models/changes.rs::ProductionStockChange`. -/
structure ProductionStockChange where
  fill_type : String
  amount : ℚ
  deriving DecidableEq, Repr

/-- `models/changes.rs::PlaceableChange`. -/
structure PlaceableChange where
  index : Nat
  farm_id : Option Nat
  price : Option ℚ
  complete_construction : Bool
  production_inputs : Option (List ProductionStockChange)
  production_outputs : Option (List ProductionStockChange)
  deriving DecidableEq, Repr

/-- `models/changes.rs::MissionChange`. -/
structure MissionChange where
  unique_id : String
  reward : Option ℚ
  completion : Option ℚ
  status : Option String
  reimbursement : Option ℚ
  deriving DecidableEq, Repr

/-- `models/changes.rs::CollectibleChange`. -/
structure CollectibleChange where
  index : Nat
  collected : Bool
  deriving DecidableEq, Repr

/-- `models/changes.rs::ContractSettingsChange`. -/
structure ContractSettingsChange where
  lease_vehicle : Option ℚ
  mission_per_farm : Option ℚ
  allow_clear_add : Option ℚ
  deriving DecidableEq, Repr

/-- `models/environment.rs::WeatherEvent`. -/
structure WeatherEvent where
  type_name : String
  season : String
  variation_index : Nat
  start_day : Nat
  start_day_time : Nat
  duration : Nat
  deriving DecidableEq, Repr

/-- `models/changes.rs::EnvironmentChanges`. -/
structure EnvironmentChanges where
  day_time : Option ℚ
  current_day : Option Nat
  snow_height : Option ℚ
  ground_wetness : Option ℚ
  weather_forecast : Option (List WeatherEvent)
  deriving DecidableEq, Repr

/-- `models/changes.rs::SavegameChanges`: the changeset bundle.  It carries
twelve optional sub-domains, `economy` included. -/
structure SavegameChanges where
  finance : Option FinanceChanges
  vehicles : Option (List VehicleChange)
  sales : Option (List SaleChange)
  sale_additions : Option (List SaleAddition)
  fields : Option (List FieldChange)
  farmlands : Option (List FarmlandChange)
  placeables : Option (List PlaceableChange)
  missions : Option (List MissionChange)
  collectibles : Option (List CollectibleChange)
  contract_settings : Option ContractSettingsChange
  environment : Option EnvironmentChanges
  economy : Option EconomyChanges
  deriving DecidableEq, Repr

/-! ## The filesystem layer

A save directory is a map from file name to parsed token stream; the
`quick_xml` read/serialize round trip is the identity on tokens.  Each
writer's filesystem activity is recorded as a list of operations
(`std::fs::write` to a path, `std::fs::rename`), so that the commit
discipline — temp write followed by rename — is itself a proved property
rather than an assumption. -/

/-- A save directory: file name to content (token stream). -/
abbrev Fs := List (String × List Token)

/-- Content of a file, `none` when the file does not exist. -/
def lookupFile (fs : Fs) (name : String) : Option (List Token) :=
  match fs.find? (fun e => e.1 = name) with
  | some e => some e.2
  | none => none

/-- Create or overwrite a file. -/
def setFile (fs : Fs) (name : String) (content : List Token) : Fs :=
  match fs with
  | [] => [(name, content)]
  | e :: rest =>
    if e.1 = name then (name, content) :: rest
    else e :: setFile rest name content

/-- Delete a file. -/
def removeFile (fs : Fs) (name : String) : Fs :=
  fs.filter (fun e => ¬ e.1 = name)

/-- A filesystem operation performed by a writer. -/
inductive FsOp where
  | write (name : String) (content : List Token)
  | rename (src : String) (dst : String)
  deriving DecidableEq, Repr

/-- Apply one operation: `rename` moves the source file over the
destination. -/
def applyFsOp (fs : Fs) : FsOp → Fs
  | .write name content => setFile fs name content
  | .rename src dst =>
    match lookupFile fs src with
    | some c => setFile (removeFile fs src) dst c
    | none => fs

/-- Apply a list of operations in order. -/
def applyFsOps (fs : Fs) (ops : List FsOp) : Fs :=
  ops.foldl applyFsOp fs

/-- The shared commit tail of every streaming writer: write the output
buffer to `<file>.tmp` (for `<name>.xml` this is `<name>.xml.tmp`, the
effect of `with_extension("xml.tmp")`), then rename it over the target. -/
def commitOps (file : String) (out : List Token) : List FsOp :=
  [.write (file ++ ".tmp") out, .rename (file ++ ".tmp") file]

/-- A streaming patch writer at the filesystem level: read the file
(an absent file is the I/O error path), transform the token stream, commit
atomically.  `tf` may fail, modelling the parse-error path. -/
def runPatchWriter (file : String) (tf : List Token → Except String (List Token))
    (fs : Fs) : Except String (List FsOp) :=
  match lookupFile fs file with
  | none => .error (file ++ ": file not found")
  | some ts =>
    match tf ts with
    | .ok out => .ok (commitOps file out)
    | .error e => .error e

/-- `write_career_money` at the filesystem level. -/
def run_career_money (money : ℚ) (fs : Fs) : Except String (List FsOp) :=
  runPatchWriter "careerSavegame.xml" (fun ts => .ok (write_career_money money ts)) fs

/-- `write_farm_finances` at the filesystem level. -/
def run_farm_finances (farmId : Nat) (money loan : Option ℚ) (fs : Fs) :
    Except String (List FsOp) :=
  runPatchWriter "farms.xml" (fun ts => .ok (write_farm_finances farmId money loan ts)) fs

/-- `write_vehicle_changes` at the filesystem level. -/
def run_vehicle_changes (cs : List VehicleChange) (fs : Fs) : Except String (List FsOp) :=
  runPatchWriter "vehicles.xml" (fun ts => .ok (write_vehicle_changes cs ts)) fs

/-- `write_sale_changes` at the filesystem level. -/
def run_sale_changes (cs : List SaleChange) (fs : Fs) : Except String (List FsOp) :=
  runPatchWriter "sales.xml" (fun ts => .ok (write_sale_changes cs ts)) fs

/-- `write_economy_changes` at the filesystem level. -/
def run_economy_changes (ch : EconomyChanges) (fs : Fs) : Except String (List FsOp) :=
  runPatchWriter "economy.xml" (fun ts => .ok (write_economy_changes ch ts)) fs

/-- Splice the formatted new items immediately before the last
`</sales>` token (`content.rfind("</sales>")`); `none` when the closing tag
is missing. -/
def insertBeforeLastClose (adds : List SaleAddition) : List Token → Option (List Token)
  | [] => none
  | t :: ts =>
    match insertBeforeLastClose adds ts with
    | some rest => some (t :: rest)
    | none =>
      if t = Token.close "sales" then some (adds.map format_sale_item ++ t :: ts)
      else none

/-- The minimal document `write_sale_additions` synthesizes when `sales.xml`
does not exist: declaration, root, items, root close. -/
def synthSalesDoc (adds : List SaleAddition) : List Token :=
  Token.other "<?xml version=\"1.0\" encoding=\"utf-8\" standalone=\"no\"?>"
    :: Token.start "sales" [] :: (adds.map format_sale_item ++ [Token.close "sales"])

/-- `writers/sale.rs::write_sale_additions` at the filesystem level.  Empty
addition lists return without touching the disk; when `sales.xml` does not
exist the synthesized document is written directly to `sales.xml` (no temp
file, no rename — unlike every other commit path); otherwise the spliced
document is committed via temp write plus rename. -/
def run_sale_additions (adds : List SaleAddition) (fs : Fs) : Except String (List FsOp) :=
  if adds = [] then .ok []
  else
    match lookupFile fs "sales.xml" with
    | none => .ok [.write "sales.xml" (synthSalesDoc adds)]
    | some ts =>
      match insertBeforeLastClose adds ts with
      | some out => .ok (commitOps "sales.xml" out)
      | none => .error "Missing </sales> closing tag"

/-! ## The save orchestrator (`commands/savegame.rs::save_changes`)

The orchestrator is modelled from the point where the save path has been
validated and found to exist (`validate_savegame_path` and the existence
check abort earlier; both concern real filesystem paths outside this model).
The backup manager's directory copy (`backup/manager.rs::create_backup`,
whose recursive copy is the external `fs_extra::dir::copy`) is modelled as a
snapshot of the file map, stored under a caller-supplied backup path; its
possible I/O failure is injected through the environment.  Timestamps do not
appear in the model (the backup path stands for the timestamp-derived
directory name).

The seven writers whose attribute tables no claim depends on
(`writers/field.rs`, `writers/mission.rs`, …) share with the embedded
writers the identical read / transform / temp-write / rename body; they are
embedded with their content transforms as parameters (`WriterFns`), so every
theorem about the orchestrator holds for all their behaviours. -/

/-- Content transforms of the seven writers not otherwise needed by the
claims; each may fail, modelling the parse-error path. -/
structure WriterFns where
  fieldT : List FieldChange → List Token → Except String (List Token)
  farmlandT : List FarmlandChange → List Token → Except String (List Token)
  placeableT : List PlaceableChange → List Token → Except String (List Token)
  missionT : List MissionChange → List Token → Except String (List Token)
  collectibleT : List CollectibleChange → List Token → Except String (List Token)
  contractT : ContractSettingsChange → List Token → Except String (List Token)
  envT : EnvironmentChanges → List Token → Except String (List Token)

/-- External conditions of one `save_changes` call: whether the backup copy
succeeds, the backup directory path (timestamp-derived in the source) and
the error message carried by a failed backup. -/
structure Env where
  backupOk : Bool
  backupPath : String
  backupErr : String

/-- State of the world: the save directory and the backups taken so far. -/
structure SaveState where
  files : Fs
  backups : List (String × Fs)
  deriving DecidableEq

/-- `backup/manager.rs::create_backup`: on success, one new snapshot of the
save directory appears under the backup path. -/
def create_backup (env : Env) (s : SaveState) : Except String (String × SaveState) :=
  if env.backupOk then
    .ok (env.backupPath, ⟨s.files, (env.backupPath, s.files) :: s.backups⟩)
  else .error env.backupErr

/-- The writer invocations observable in one `save_changes` call. -/
inductive Ev where
  | backup | wCareer | wFarm | wVehicle | wSale | wSaleAdd | wField | wFarmland
  | wPlaceable | wMission | wCollectible | wContract | wEnv
  deriving DecidableEq, Repr

/-- One writer invocation inside `save_changes`: its event label, the file
name used for reporting, whether the `files_modified` push is guarded by a
`contains` check (every push except the `careerSavegame.xml` one is), and
the writer itself. -/
structure PlanStep where
  ev : Ev
  file : String
  dedup : Bool
  run : Fs → Except String (List FsOp)

/-- The accumulator threaded through the writer sequence: current files,
`files_modified`, `errors`, and the invocation trace. -/
structure SaveAcc where
  files : Fs
  mods : List String
  errs : List LocalizedMessage
  trace : List Ev

/-- One `match writers::x(...)` block of `save_changes`: on success apply
the filesystem operations and record the file name (guarded by `contains`
when `dedup`); on failure record a structured
`errors.fileWriteError` message naming the file and the cause.  The writer
is invoked either way, so the trace always grows. -/
def applyStep (acc : SaveAcc) (st : PlanStep) : SaveAcc :=
  match st.run acc.files with
  | .ok ops =>
    { files := applyFsOps acc.files ops
      mods := if st.dedup && acc.mods.contains st.file then acc.mods
              else acc.mods ++ [st.file]
      errs := acc.errs
      trace := acc.trace ++ [st.ev] }
  | .error e =>
    { acc with errs := acc.errs ++ [mkWriteErr st.file e], trace := acc.trace ++ [st.ev] }

/-- The finance block of `save_changes` (lines 293-332): a money change
writes `careerSavegame.xml` and syncs farm 1's money into `farms.xml`; a
loan change writes farm 1's loan into `farms.xml`. -/
def financePlan (f : FinanceChanges) : List PlanStep :=
  (match f.money with
   | some m =>
     [⟨.wCareer, "careerSavegame.xml", false, run_career_money m⟩,
      ⟨.wFarm, "farms.xml", true, run_farm_finances 1 (some m) none⟩]
   | none => []) ++
  (match f.loan with
   | some l => [⟨.wFarm, "farms.xml", true, run_farm_finances 1 none (some l)⟩]
   | none => [])

/-- One `if let Some(ref x) = changes.y` block: one writer invocation when
the sub-domain is present, none otherwise. -/
def optSteps {α : Type} (o : Option α) (k : α → PlanStep) : List PlanStep :=
  match o with
  | some x => [k x]
  | none => []

/-- The writer invocations of the ten sub-domains after finance, in source
order (lines 334-492). -/
def restPlan (W : WriterFns) (ch : SavegameChanges) : List PlanStep :=
  optSteps ch.vehicles (fun v => ⟨.wVehicle, "vehicles.xml", true, run_vehicle_changes v⟩) ++
  optSteps ch.sales (fun v => ⟨.wSale, "sales.xml", true, run_sale_changes v⟩) ++
  optSteps ch.sale_additions (fun v => ⟨.wSaleAdd, "sales.xml", true, run_sale_additions v⟩) ++
  optSteps ch.fields
    (fun v => ⟨.wField, "fields.xml", true, runPatchWriter "fields.xml" (W.fieldT v)⟩) ++
  optSteps ch.farmlands
    (fun v => ⟨.wFarmland, "farmland.xml", true, runPatchWriter "farmland.xml" (W.farmlandT v)⟩) ++
  optSteps ch.placeables
    (fun v => ⟨.wPlaceable, "placeables.xml", true,
      runPatchWriter "placeables.xml" (W.placeableT v)⟩) ++
  optSteps ch.missions
    (fun v => ⟨.wMission, "missions.xml", true, runPatchWriter "missions.xml" (W.missionT v)⟩) ++
  optSteps ch.collectibles
    (fun v => ⟨.wCollectible, "collectibles.xml", true,
      runPatchWriter "collectibles.xml" (W.collectibleT v)⟩) ++
  optSteps ch.contract_settings
    (fun v => ⟨.wContract, "r_contracts.xml", true,
      runPatchWriter "r_contracts.xml" (W.contractT v)⟩) ++
  optSteps ch.environment
    (fun v => ⟨.wEnv, "environment.xml", true, runPatchWriter "environment.xml" (W.envT v)⟩)

/-- The sequence of writer invocations of one `save_changes` call, in source
order (lines 292-492): the finance block, then one block per present
sub-domain.  There is no block for `economy`. -/
def buildPlan (W : WriterFns) (ch : SavegameChanges) : List PlanStep :=
  (match ch.finance with
   | some f => financePlan f
   | none => []) ++ restPlan W ch

/-- The `has_changes` disjunction of `save_changes` (lines 268-278): eleven
`is_some()` checks — `economy` is not among them. -/
def hasChangesB (ch : SavegameChanges) : Bool :=
  ch.finance.isSome || ch.vehicles.isSome || ch.sales.isSome
    || ch.sale_additions.isSome || ch.fields.isSome || ch.farmlands.isSome
    || ch.placeables.isSome || ch.missions.isSome || ch.collectibles.isSome
    || ch.contract_settings.isSome || ch.environment.isSome

/-- Outcome of one `save_changes` call: a fatal error (the `?` on
`create_backup`), or a `SaveResult` — with the resulting world state and the
invocation trace alongside. -/
inductive SaveOutcome where
  | fatal (err : String) (s : SaveState) (trace : List Ev)
  | done (r : SaveResult) (s : SaveState) (trace : List Ev)

/-- `commands/savegame.rs::save_changes` (lines 255-500): early success
when no checked sub-domain is present; otherwise one mandatory backup whose
failure is fatal, then the writer sequence, then the aggregate result. -/
def save_changes (W : WriterFns) (env : Env) (ch : SavegameChanges)
    (s0 : SaveState) : SaveOutcome :=
  if hasChangesB ch = false then
    .done ⟨true, none, [], []⟩ s0 []
  else
    match create_backup env s0 with
    | .error e => .fatal e s0 [.backup]
    | .ok (bp, s1) =>
      let a := (buildPlan W ch).foldl applyStep ⟨s1.files, [], [], []⟩
      .done ⟨a.errs.isEmpty, some bp, a.mods, a.errs⟩ ⟨a.files, s1.backups⟩
        (.backup :: a.trace)

/-! ## Orchestrator lemmas -/

/-- A present sub-domain is non-empty under `g`; absent is empty. -/
def optNE {α : Type} (o : Option α) (g : α → Bool) : Bool :=
  match o with
  | some x => g x
  | none => false

/-- A sub-domain is non-empty when it is present and carries an actual edit:
a finance change with money or loan set, a non-empty change list, a contract
or environment change with at least one field set. -/
def subNonEmptyB (ch : SavegameChanges) : Bool :=
  optNE ch.finance (fun f => f.money.isSome || f.loan.isSome)
  || optNE ch.vehicles (fun l => !l.isEmpty)
  || optNE ch.sales (fun l => !l.isEmpty)
  || optNE ch.sale_additions (fun l => !l.isEmpty)
  || optNE ch.fields (fun l => !l.isEmpty)
  || optNE ch.farmlands (fun l => !l.isEmpty)
  || optNE ch.placeables (fun l => !l.isEmpty)
  || optNE ch.missions (fun l => !l.isEmpty)
  || optNE ch.collectibles (fun l => !l.isEmpty)
  || optNE ch.contract_settings (fun c => c.lease_vehicle.isSome
      || c.mission_per_farm.isSome || c.allow_clear_add.isSome)
  || optNE ch.environment (fun e => e.day_time.isSome || e.current_day.isSome
      || e.snow_height.isSome || e.ground_wetness.isSome || e.weather_forecast.isSome)

theorem optNE_isSome {α : Type} {o : Option α} {g : α → Bool}
    (h : optNE o g = true) : o.isSome = true := by
  cases o <;> simp_all [optNE]

theorem hasChangesB_of_subNonEmptyB {ch : SavegameChanges}
    (h : subNonEmptyB ch = true) : hasChangesB ch = true := by
  simp only [subNonEmptyB, Bool.or_eq_true] at h
  rcases h with ((((((((((h | h) | h) | h) | h) | h) | h) | h) | h) | h) | h) <;>
    simp [hasChangesB, optNE_isSome h]

theorem save_changes_no_changes {W : WriterFns} {env : Env} {ch : SavegameChanges}
    {s0 : SaveState} (h : hasChangesB ch = false) :
    save_changes W env ch s0 = .done ⟨true, none, [], []⟩ s0 [] := by
  simp [save_changes, h]

/-- The filenames of the plan steps that succeed, threading the filesystem. -/
def okFilesSpec (fs : Fs) : List PlanStep → List String
  | [] => []
  | st :: rest =>
    match st.run fs with
    | .ok ops => st.file :: okFilesSpec (applyFsOps fs ops) rest
    | .error _ => okFilesSpec fs rest

/-- The structured errors contributed by the plan steps that fail. -/
def errsSpec (fs : Fs) : List PlanStep → List LocalizedMessage
  | [] => []
  | st :: rest =>
    match st.run fs with
    | .ok ops => errsSpec (applyFsOps fs ops) rest
    | .error e => mkWriteErr st.file e :: errsSpec fs rest

/-- The invocation trace of a plan: every step runs, in order. -/
def traceSpec (plan : List PlanStep) : List Ev :=
  plan.map (fun st => st.ev)

theorem applyStep_ok {acc : SaveAcc} {st : PlanStep} {ops : List FsOp}
    (h : st.run acc.files = .ok ops) :
    applyStep acc st =
      ⟨applyFsOps acc.files ops,
       if st.dedup && acc.mods.contains st.file then acc.mods
       else acc.mods ++ [st.file],
       acc.errs, acc.trace ++ [st.ev]⟩ := by
  simp [applyStep, h]

theorem applyStep_err {acc : SaveAcc} {st : PlanStep} {e : String}
    (h : st.run acc.files = .error e) :
    applyStep acc st =
      ⟨acc.files, acc.mods, acc.errs ++ [mkWriteErr st.file e],
       acc.trace ++ [st.ev]⟩ := by
  simp [applyStep, h]

theorem foldl_applyStep_spec (plan : List PlanStep) :
    ∀ acc : SaveAcc,
      ((plan.foldl applyStep acc).errs = acc.errs ++ errsSpec acc.files plan)
      ∧ ((plan.foldl applyStep acc).trace = acc.trace ++ traceSpec plan)
      ∧ (∀ f, f ∈ (plan.foldl applyStep acc).mods ↔
          f ∈ acc.mods ∨ f ∈ okFilesSpec acc.files plan)
      ∧ ((plan.foldl applyStep acc).files =
          plan.foldl (fun fs st =>
            match st.run fs with
            | .ok ops => applyFsOps fs ops
            | .error _ => fs) acc.files) := by
  induction plan with
  | nil => intro acc; simp [errsSpec, traceSpec, okFilesSpec]
  | cons st rest ih =>
    intro acc
    simp only [List.foldl_cons]
    rcases hrun : st.run acc.files with e | ops
    · rw [applyStep_err hrun]
      have h := ih ⟨acc.files, acc.mods, acc.errs ++ [mkWriteErr st.file e],
        acc.trace ++ [st.ev]⟩
      refine ⟨?_, ?_, ?_, ?_⟩
      · rw [h.1]; simp [errsSpec, hrun]
      · rw [h.2.1]; simp [traceSpec]
      · intro f; rw [h.2.2.1 f]; simp [okFilesSpec, hrun]
      · rw [h.2.2.2]
    · rw [applyStep_ok hrun]
      have h := ih ⟨applyFsOps acc.files ops,
        if st.dedup && acc.mods.contains st.file then acc.mods
        else acc.mods ++ [st.file], acc.errs, acc.trace ++ [st.ev]⟩
      refine ⟨?_, ?_, ?_, ?_⟩
      · rw [h.1]; simp [errsSpec, hrun]
      · rw [h.2.1]; simp [traceSpec]
      · intro f
        rw [h.2.2.1 f]
        cases hd : st.dedup && acc.mods.contains st.file with
        | false => simp only [okFilesSpec, hrun, hd, List.mem_cons,
            Bool.false_eq_true, if_false, List.mem_append, List.mem_singleton]; tauto
        | true =>
          have hmem : st.file ∈ acc.mods := by
            have h2 := ((Bool.and_eq_true _ _).mp hd).2
            simpa using h2
          have himp : f = st.file → f ∈ acc.mods := fun he => he ▸ hmem
          simp only [okFilesSpec, hrun, hd, List.mem_cons, if_true]
          tauto
      · rw [h.2.2.2]

theorem optSteps_mem {α : Type} {o : Option α} {k : α → PlanStep} {st : PlanStep}
    (h : st ∈ optSteps o k) : ∃ x, o = some x ∧ st = k x := by
  cases o <;> simp_all [optSteps]

theorem restPlan_dedup {W : WriterFns} {ch : SavegameChanges} :
    ∀ st ∈ restPlan W ch, st.dedup = true := by
  intro st h
  simp only [restPlan, List.mem_append] at h
  rcases h with ((((((((h | h) | h) | h) | h) | h) | h) | h) | h) | h <;>
    · obtain ⟨x, _, rfl⟩ := optSteps_mem h; rfl

theorem foldNodup_allDedup (plan : List PlanStep) :
    ∀ acc : SaveAcc, (∀ st ∈ plan, st.dedup = true) → acc.mods.Nodup →
      ((plan.foldl applyStep acc).mods).Nodup := by
  induction plan with
  | nil => intro acc _ hn; simpa using hn
  | cons st rest ih =>
    intro acc hd hn
    simp only [List.foldl_cons]
    rcases hrun : st.run acc.files with e | ops
    · rw [applyStep_err hrun]
      exact ih _ (fun s hs => hd s (List.mem_cons_of_mem _ hs)) hn
    · rw [applyStep_ok hrun]
      apply ih _ (fun s hs => hd s (List.mem_cons_of_mem _ hs))
      have hst : st.dedup = true := hd st (List.mem_cons_self _ _)
      by_cases hcon : acc.mods.contains st.file = true
      · simp only [hst, hcon, Bool.and_self, if_true]
        exact hn
      · have hnm : st.file ∉ acc.mods := fun hm => hcon (by simpa using hm)
        have hconf : acc.mods.contains st.file = false := Bool.eq_false_iff.mpr hcon
        have hcon2 : (st.dedup && acc.mods.contains st.file) = false := by
          rw [hst, hconf]; rfl
        simp only [hcon2, Bool.false_eq_true, if_false]
        refine List.Nodup.append hn (List.nodup_singleton _) ?_
        intro a ha hb
        rw [List.mem_singleton] at hb
        exact hnm (hb ▸ ha)

theorem buildPlan_fold_nodup (W : WriterFns) (ch : SavegameChanges) (acc : SaveAcc)
    (hacc : acc.mods = []) : ((buildPlan W ch).foldl applyStep acc).mods.Nodup := by
  cases hf : ch.finance with
  | none =>
    apply foldNodup_allDedup
    · intro st h
      simp only [buildPlan, hf, List.nil_append] at h
      exact restPlan_dedup st h
    · rw [hacc]; exact List.nodup_nil
  | some f =>
    cases hm : f.money with
    | none =>
      apply foldNodup_allDedup
      · intro st h
        simp only [buildPlan, hf, List.mem_append] at h
        rcases h with h | h
        · simp only [financePlan, hm, List.nil_append] at h
          cases hl : f.loan with
          | none => rw [hl] at h; simp at h
          | some l =>
            rw [hl] at h
            rw [List.mem_singleton] at h
            rw [h]
        · exact restPlan_dedup st h
      · rw [hacc]; exact List.nodup_nil
    | some m =>
      have hplan : buildPlan W ch =
          ⟨.wCareer, "careerSavegame.xml", false, run_career_money m⟩ ::
          (⟨.wFarm, "farms.xml", true, run_farm_finances 1 (some m) none⟩ ::
            (match f.loan with
             | some l => [⟨.wFarm, "farms.xml", true, run_farm_finances 1 none (some l)⟩]
             | none => []) ++ restPlan W ch) := by
        simp [buildPlan, hf, financePlan, hm]
      rw [hplan, List.foldl_cons]
      have hded : ∀ st ∈ ((⟨.wFarm, "farms.xml", true,
            run_farm_finances 1 (some m) none⟩ ::
            (match f.loan with
             | some l => [⟨.wFarm, "farms.xml", true, run_farm_finances 1 none (some l)⟩]
             | none => [])) ++ restPlan W ch : List PlanStep), st.dedup = true := by
        intro st h
        rw [List.mem_append] at h
        rcases h with h | h
        · rw [List.mem_cons] at h
          rcases h with h | h
          · rw [h]
          · cases hl : f.loan with
            | none => rw [hl] at h; simp at h
            | some l => rw [hl] at h; rw [List.mem_singleton] at h; rw [h]
        · exact restPlan_dedup st h
      apply foldNodup_allDedup _ _ hded
      rcases hrun : run_career_money m acc.files with e | ops
      · rw [applyStep_err hrun, hacc]
        exact List.nodup_nil
      · rw [applyStep_ok hrun, hacc]
        simp

theorem errsSpec_shape (plan : List PlanStep) :
    ∀ fs : Fs, ∀ m ∈ errsSpec fs plan, ∃ f e, m = mkWriteErr f e := by
  induction plan with
  | nil => intro fs m hm; simp [errsSpec] at hm
  | cons st rest ih =>
    intro fs m hm
    rcases hrun : st.run fs with e | ops
    · simp only [errsSpec, hrun, List.mem_cons] at hm
      rcases hm with hm | hm
      · exact ⟨st.file, e, hm⟩
      · exact ih fs m hm
    · simp only [errsSpec, hrun] at hm
      exact ih _ m hm

/-! ## Concrete fixtures for witnesses and counterexamples -/

/-- Identity content transforms for the seven parameterized writers. -/
def WId : WriterFns :=
  ⟨fun _ ts => .ok ts, fun _ ts => .ok ts, fun _ ts => .ok ts, fun _ ts => .ok ts,
   fun _ ts => .ok ts, fun _ ts => .ok ts, fun _ ts => .ok ts⟩

/-- An environment whose backup succeeds. -/
def envOk : Env := ⟨true, "backupA", "copy failed"⟩

/-- An environment whose backup fails. -/
def envBad : Env := ⟨false, "backupA", "copy failed"⟩

/-- A small save directory. -/
def fs0 : Fs := [("careerSavegame.xml", []), ("farms.xml", [])]

/-- World state holding `fs0` and no backups. -/
def st0 : SaveState := ⟨fs0, []⟩

/-- The all-`none` changeset bundle. -/
def chNone : SavegameChanges :=
  ⟨none, none, none, none, none, none, none, none, none, none, none, none⟩

/-! ## Claims C2 and C10: the no-change fast path -/

/-- Claim C2, counterexample.  A bundle whose only sub-domain is a present
but empty `FinanceChanges` (money and loan both `None`) is, in the claim's
words, a bundle "whose sub-domains are all absent or empty", so the claim
predicts an immediate return with `backup_path = None` and no new backup.
The code only tests `is_some()`, so it takes a backup: the result carries
`backup_path = Some _` and the world state gains a backup snapshot. -/
theorem claim_C2_counterexample :
    subNonEmptyB { chNone with finance := some ⟨none, none⟩ } = false
    ∧ save_changes WId envOk { chNone with finance := some ⟨none, none⟩ } st0 =
        .done ⟨true, some "backupA", [], []⟩ ⟨fs0, [("backupA", fs0)]⟩ [.backup]
    ∧ (some "backupA" : Option String) ≠ none := by
  refine ⟨rfl, rfl, by simp⟩

/-- Claim C2 (amended): when every one of the eleven sub-domains that
`save_changes` checks is `None` (absent — a present-but-empty sub-domain
does not qualify and triggers a backup, see the counterexample), the call
returns immediately with success, no backup path, empty `files_modified`
and empty errors; it creates no backup, invokes no writer, and leaves every
file unchanged.  The unchecked `economy` field plays no role. -/
theorem claim_C2 (W : WriterFns) (env : Env) (s0 : SaveState)
    (ch : SavegameChanges)
    (h1 : ch.finance = none) (h2 : ch.vehicles = none) (h3 : ch.sales = none)
    (h4 : ch.sale_additions = none) (h5 : ch.fields = none)
    (h6 : ch.farmlands = none) (h7 : ch.placeables = none)
    (h8 : ch.missions = none) (h9 : ch.collectibles = none)
    (h10 : ch.contract_settings = none) (h11 : ch.environment = none) :
    save_changes W env ch s0 = .done ⟨true, none, [], []⟩ s0 [] :=
  save_changes_no_changes
    (by simp [hasChangesB, h1, h2, h3, h4, h5, h6, h7, h8, h9, h10, h11])

/-- Witness for C2 at the all-`none` bundle. -/
theorem claim_C2_witness :
    chNone.finance = none
    ∧ save_changes WId envOk chNone st0 = .done ⟨true, none, [], []⟩ st0 [] :=
  ⟨rfl, claim_C2 WId envOk st0 chNone rfl rfl rfl rfl rfl rfl rfl rfl rfl rfl rfl⟩

/-- A non-empty economy changeset: one great-demand edit and one deletion. -/
def ecoBusy : EconomyChanges :=
  ⟨some [⟨0, some "WHEAT", none, none, none, none, none, none⟩], none, some [0]⟩

/-- Claim C10: `save_changes` never applies the `economy` sub-domain.  Its
`has_changes` test checks the other eleven fields only, so a bundle whose
only present sub-domain is `economy` — however non-empty — takes the
no-change fast path: immediate success, no backup, no writer invocation
(the trace is empty, so `write_economy_changes` in particular never runs),
and an unchanged save directory. -/
theorem claim_C10 (W : WriterFns) (env : Env) (s0 : SaveState)
    (ch : SavegameChanges) (eco : EconomyChanges)
    (h1 : ch.finance = none) (h2 : ch.vehicles = none) (h3 : ch.sales = none)
    (h4 : ch.sale_additions = none) (h5 : ch.fields = none)
    (h6 : ch.farmlands = none) (h7 : ch.placeables = none)
    (h8 : ch.missions = none) (h9 : ch.collectibles = none)
    (h10 : ch.contract_settings = none) (h11 : ch.environment = none)
    (_h12 : ch.economy = some eco) :
    save_changes W env ch s0 = .done ⟨true, none, [], []⟩ s0 [] :=
  save_changes_no_changes
    (by simp [hasChangesB, h1, h2, h3, h4, h5, h6, h7, h8, h9, h10, h11])

/-- Witness for C10: only `economy` present, with non-empty edits. -/
theorem claim_C10_witness :
    { chNone with economy := some ecoBusy }.economy = some ecoBusy
    ∧ save_changes WId envOk { chNone with economy := some ecoBusy } st0 =
        .done ⟨true, none, [], []⟩ st0 [] :=
  ⟨rfl, claim_C10 WId envOk st0 { chNone with economy := some ecoBusy } ecoBusy
    rfl rfl rfl rfl rfl rfl rfl rfl rfl rfl rfl rfl⟩

/-! ## Claim C3: mandatory backup before any writer -/

/-- Claim C3: for a bundle with at least one non-empty sub-domain,
`save_changes` performs exactly one backup, first (the trace starts with the
backup event and contains it once), whose snapshot equals the
pre-transaction save directory; writers then start from the unmodified
directory.  If the backup fails, the whole call returns that error, the
state is unchanged (no writer ran, no file modified) and the trace holds
only the backup attempt. -/
theorem claim_C3 (W : WriterFns) (env : Env) (ch : SavegameChanges)
    (s0 : SaveState) (h : subNonEmptyB ch = true) :
    (env.backupOk = true →
      ∃ a : SaveAcc,
        a = (buildPlan W ch).foldl applyStep ⟨s0.files, [], [], []⟩
        ∧ save_changes W env ch s0 =
            .done ⟨a.errs.isEmpty, some env.backupPath, a.mods, a.errs⟩
              ⟨a.files, (env.backupPath, s0.files) :: s0.backups⟩
              (.backup :: a.trace)
        ∧ (Ev.backup :: a.trace).count .backup = 1 + a.trace.count .backup)
    ∧ (env.backupOk = false →
        save_changes W env ch s0 = .fatal env.backupErr s0 [.backup]) := by
  have hc := hasChangesB_of_subNonEmptyB h
  constructor
  · intro hb
    refine ⟨_, rfl, ?_, by simp [Nat.add_comm]⟩
    simp [save_changes, hc, create_backup, hb]
  · intro hb
    simp [save_changes, hc, create_backup, hb]

/-- Witness for C3: a money-only bundle at a concrete directory, checked in
both the successful-backup and failed-backup environments. -/
theorem claim_C3_witness :
    subNonEmptyB { chNone with finance := some ⟨some 1, none⟩ } = true
    ∧ ((envOk.backupOk = true →
        ∃ a : SaveAcc,
          a = (buildPlan WId { chNone with finance := some ⟨some 1, none⟩ }).foldl
                applyStep ⟨st0.files, [], [], []⟩
          ∧ save_changes WId envOk { chNone with finance := some ⟨some 1, none⟩ } st0 =
              .done ⟨a.errs.isEmpty, some envOk.backupPath, a.mods, a.errs⟩
                ⟨a.files, (envOk.backupPath, st0.files) :: st0.backups⟩
                (.backup :: a.trace)
          ∧ (Ev.backup :: a.trace).count .backup = 1 + a.trace.count .backup)
      ∧ (envOk.backupOk = false →
          save_changes WId envOk { chNone with finance := some ⟨some 1, none⟩ } st0 =
            .fatal envOk.backupErr st0 [.backup]))
    ∧ ((envBad.backupOk = true →
        ∃ a : SaveAcc,
          a = (buildPlan WId { chNone with finance := some ⟨some 1, none⟩ }).foldl
                applyStep ⟨st0.files, [], [], []⟩
          ∧ save_changes WId envBad { chNone with finance := some ⟨some 1, none⟩ } st0 =
              .done ⟨a.errs.isEmpty, some envBad.backupPath, a.mods, a.errs⟩
                ⟨a.files, (envBad.backupPath, st0.files) :: st0.backups⟩
                (.backup :: a.trace)
          ∧ (Ev.backup :: a.trace).count .backup = 1 + a.trace.count .backup)
      ∧ (envBad.backupOk = false →
          save_changes WId envBad { chNone with finance := some ⟨some 1, none⟩ } st0 =
            .fatal envBad.backupErr st0 [.backup])) :=
  ⟨by decide,
   claim_C3 WId envOk { chNone with finance := some ⟨some 1, none⟩ } st0 (by decide),
   claim_C3 WId envBad { chNone with finance := some ⟨some 1, none⟩ } st0 (by decide)⟩

/-! ## Claim C4: partial-failure isolation and aggregation -/

/-- Claim C4: with a successful backup, `save_changes` never aborts on a
writer failure — it returns a `SaveResult` in which each failing writer
contributed one structured `errors.fileWriteError` entry naming its file and
the underlying cause; every present sub-domain's writer was invoked, in
order, regardless of earlier failures (the trace lists the whole plan);
`success` is the emptiness of the error list; and `files_modified` is
duplicate-free and holds exactly the filenames of the writers that
succeeded. -/
theorem claim_C4 (W : WriterFns) (env : Env) (ch : SavegameChanges)
    (s0 : SaveState) (hne : subNonEmptyB ch = true) (hb : env.backupOk = true)
    (_hfail : errsSpec s0.files (buildPlan W ch) ≠ []) :
    ∃ r : SaveResult, ∃ sfin : SaveState,
      save_changes W env ch s0 = .done r sfin (.backup :: traceSpec (buildPlan W ch))
      ∧ r.backup_path = some env.backupPath
      ∧ r.errors = errsSpec s0.files (buildPlan W ch)
      ∧ (∀ m ∈ r.errors, ∃ f e, m = mkWriteErr f e)
      ∧ r.success = r.errors.isEmpty
      ∧ r.files_modified.Nodup
      ∧ (∀ f, f ∈ r.files_modified ↔ f ∈ okFilesSpec s0.files (buildPlan W ch))
      ∧ (∀ st ∈ buildPlan W ch, st.ev ∈ traceSpec (buildPlan W ch)) := by
  have hc := hasChangesB_of_subNonEmptyB hne
  have hspec := foldl_applyStep_spec (buildPlan W ch) ⟨s0.files, [], [], []⟩
  have htrace : ((buildPlan W ch).foldl applyStep ⟨s0.files, [], [], []⟩).trace =
      traceSpec (buildPlan W ch) := by
    have := hspec.2.1; simpa using this
  have herrs : ((buildPlan W ch).foldl applyStep ⟨s0.files, [], [], []⟩).errs =
      errsSpec s0.files (buildPlan W ch) := by
    have := hspec.1; simpa using this
  refine ⟨⟨((buildPlan W ch).foldl applyStep ⟨s0.files, [], [], []⟩).errs.isEmpty,
      some env.backupPath,
      ((buildPlan W ch).foldl applyStep ⟨s0.files, [], [], []⟩).mods,
      ((buildPlan W ch).foldl applyStep ⟨s0.files, [], [], []⟩).errs⟩,
    ⟨((buildPlan W ch).foldl applyStep ⟨s0.files, [], [], []⟩).files,
      (env.backupPath, s0.files) :: s0.backups⟩, ?_, rfl, herrs, ?_, rfl, ?_, ?_, ?_⟩
  · rw [← htrace]
    simp [save_changes, hc, create_backup, hb]
  · intro m hm
    rw [herrs] at hm
    exact errsSpec_shape (buildPlan W ch) s0.files m hm
  · exact buildPlan_fold_nodup W ch _ rfl
  · intro f
    have := hspec.2.2.1 f
    simpa using this
  · intro st h
    exact List.mem_map_of_mem _ h

/-- A bundle used as the C4 witness: a money edit plus a vehicle edit; the
fixture directory `fs0` has no `vehicles.xml`, so the vehicle writer fails
after the finance writers succeed. -/
def chC4 : SavegameChanges :=
  { chNone with finance := some ⟨some 1, none⟩, vehicles := some [] }

/-- Witness for C4 at a concrete failing bundle. -/
theorem claim_C4_witness :
    subNonEmptyB chC4 = true
    ∧ envOk.backupOk = true
    ∧ errsSpec st0.files (buildPlan WId chC4) ≠ []
    ∧ (∃ r : SaveResult, ∃ sfin : SaveState,
        save_changes WId envOk chC4 st0 =
          .done r sfin (.backup :: traceSpec (buildPlan WId chC4))
        ∧ r.backup_path = some envOk.backupPath
        ∧ r.errors = errsSpec st0.files (buildPlan WId chC4)
        ∧ (∀ m ∈ r.errors, ∃ f e, m = mkWriteErr f e)
        ∧ r.success = r.errors.isEmpty
        ∧ r.files_modified.Nodup
        ∧ (∀ f, f ∈ r.files_modified ↔ f ∈ okFilesSpec st0.files (buildPlan WId chC4))
        ∧ (∀ st ∈ buildPlan WId chC4, st.ev ∈ traceSpec (buildPlan WId chC4))) :=
  ⟨by decide, rfl, by decide,
   claim_C4 WId envOk chC4 st0 (by decide) rfl (by decide)⟩

/-! ## Claim C5: temp-write plus rename commit -/

theorem lookupFile_setFile_same (fs : Fs) (n : String) (c : List Token) :
    lookupFile (setFile fs n c) n = some c := by
  induction fs with
  | nil => simp [setFile, lookupFile]
  | cons e rest ih =>
    by_cases he : e.1 = n
    · simp [setFile, he, lookupFile]
    · simp only [setFile, he, if_false]
      simpa [lookupFile, List.find?, he] using ih

theorem lookupFile_setFile_ne (fs : Fs) {m n : String} (c : List Token)
    (h : ¬ m = n) : lookupFile (setFile fs n c) m = lookupFile fs m := by
  have hnm : ¬ n = m := fun hh => h hh.symm
  induction fs with
  | nil => simp [setFile, lookupFile, List.find?, hnm]
  | cons e rest ih =>
    by_cases he : e.1 = n
    · have hm : ¬ e.1 = m := fun hh => h (hh ▸ he)
      simp [setFile, he, lookupFile, List.find?, hnm, hm]
    · by_cases hm : e.1 = m
      · simp [setFile, he, lookupFile, List.find?, hm, h]
      · simp only [setFile, he, if_false]
        simpa [lookupFile, List.find?, hm] using ih

theorem mem_setFile {fs : Fs} {n : String} {c : List Token}
    {e : String × List Token} (h : e ∈ setFile fs n c) : e = (n, c) ∨ e ∈ fs := by
  induction fs with
  | nil => simpa [setFile] using h
  | cons x rest ih =>
    by_cases hx : x.1 = n
    · simp only [setFile, hx, if_true, List.mem_cons] at h
      rcases h with h | h
      · exact Or.inl h
      · exact Or.inr (List.mem_cons_of_mem _ h)
    · simp only [setFile, hx, if_false, List.mem_cons] at h
      rcases h with h | h
      · exact Or.inr (h ▸ List.mem_cons_self _ _)
      · rcases ih h with h2 | h2
        · exact Or.inl h2
        · exact Or.inr (List.mem_cons_of_mem _ h2)

/-- A name of the `<file>.xml.tmp` form: the last eight characters are
`.xml.tmp`. -/
def isTmpName (n : String) : Bool :=
  n.data.drop (n.data.length - 8) == ".xml.tmp".data

/-- Net effect of one commit: the temp file is created, then renamed over
the target; no temp entry survives. -/
theorem applyFsOps_commit (fs : Fs) (file : String) (out : List Token) :
    applyFsOps fs (commitOps file out) =
      setFile (removeFile (setFile fs (file ++ ".tmp") out) (file ++ ".tmp"))
        file out := by
  have h1 : applyFsOps fs (commitOps file out) =
      applyFsOp (setFile fs (file ++ ".tmp") out)
        (.rename (file ++ ".tmp") file) := rfl
  rw [h1]
  simp [applyFsOp, lookupFile_setFile_same]

/-- No temp file exists in the directory. -/
def noTmp (fs : Fs) : Prop :=
  ∀ e ∈ (fs : List (String × List Token)), isTmpName e.1 = false

instance (fs : Fs) : Decidable (noTmp fs) := by
  unfold noTmp; infer_instance

theorem file_ne_tmp (file : String) : ¬ file = file ++ ".tmp" := by
  intro h
  have hl := congrArg String.length h
  rw [String.length_append] at hl
  have h4 : ".tmp".length = 4 := rfl
  omega

/-- Claim C5 (amended): every writer's successful run commits through
`<file>.tmp` plus rename — the per-writer conjuncts say a successful result
is exactly the two-operation commit — with two exceptions mirrored from the
source: an empty addition list performs no operation at all, and
`write_sale_additions` on a missing `sales.xml` writes the synthesized
document directly (see the counterexample).  The commit itself is atomic:
after any prefix of the commit operations the target file holds either its
old content or the full new content, and a directory with no `.xml.tmp`
entry has none after the commit either (the temp file is renamed away). -/
theorem claim_C5 :
    (∀ (money : ℚ) (fs : Fs) (ops : List FsOp),
        run_career_money money fs = .ok ops →
        ∃ out, ops = commitOps "careerSavegame.xml" out)
    ∧ (∀ (fid : Nat) (m l : Option ℚ) (fs : Fs) (ops : List FsOp),
        run_farm_finances fid m l fs = .ok ops →
        ∃ out, ops = commitOps "farms.xml" out)
    ∧ (∀ (cs : List VehicleChange) (fs : Fs) (ops : List FsOp),
        run_vehicle_changes cs fs = .ok ops →
        ∃ out, ops = commitOps "vehicles.xml" out)
    ∧ (∀ (cs : List SaleChange) (fs : Fs) (ops : List FsOp),
        run_sale_changes cs fs = .ok ops →
        ∃ out, ops = commitOps "sales.xml" out)
    ∧ (∀ (ec : EconomyChanges) (fs : Fs) (ops : List FsOp),
        run_economy_changes ec fs = .ok ops →
        ∃ out, ops = commitOps "economy.xml" out)
    ∧ (∀ (file : String) (tf : List Token → Except String (List Token))
        (fs : Fs) (ops : List FsOp),
        runPatchWriter file tf fs = .ok ops → ∃ out, ops = commitOps file out)
    ∧ (∀ (adds : List SaleAddition) (fs : Fs) (ops : List FsOp),
        ¬ adds = [] → ¬ lookupFile fs "sales.xml" = none →
        run_sale_additions adds fs = .ok ops →
        ∃ out, ops = commitOps "sales.xml" out)
    ∧ (∀ (adds : List SaleAddition) (fs : Fs),
        ¬ adds = [] → lookupFile fs "sales.xml" = none →
        run_sale_additions adds fs = .ok [.write "sales.xml" (synthSalesDoc adds)])
    ∧ (∀ (fs : Fs) (file : String) (out : List Token),
        isTmpName file = false →
        noTmp fs → noTmp (applyFsOps fs (commitOps file out)))
    ∧ (∀ (fs : Fs) (file : String) (out : List Token) (pre suf : List FsOp),
        commitOps file out = pre ++ suf →
        lookupFile (applyFsOps fs pre) file = lookupFile fs file
        ∨ lookupFile (applyFsOps fs pre) file = some out) := by
  have hgen : ∀ (file : String) (tf : List Token → Except String (List Token))
      (fs : Fs) (ops : List FsOp),
      runPatchWriter file tf fs = .ok ops → ∃ out, ops = commitOps file out := by
    intro file tf fs ops h
    unfold runPatchWriter at h
    split at h
    · exact absurd h (by simp)
    · split at h
      · exact ⟨_, ((Except.ok.injEq _ _).mp h).symm⟩
      · exact absurd h (by simp)
  refine ⟨fun money => hgen _ _, fun fid m l => hgen _ _, fun cs => hgen _ _,
    fun cs => hgen _ _, fun ec => hgen _ _, hgen, ?_, ?_, ?_, ?_⟩
  · intro adds fs ops hne hex h
    unfold run_sale_additions at h
    rw [if_neg hne] at h
    split at h
    · exact absurd (by assumption) hex
    · split at h
      · exact ⟨_, ((Except.ok.injEq _ _).mp h).symm⟩
      · exact absurd h (by simp)
  · intro adds fs hne hmiss
    unfold run_sale_additions
    rw [if_neg hne, hmiss]
  · intro fs file out hfile hf
    intro e he
    rw [applyFsOps_commit] at he
    rcases mem_setFile he with h1 | h1
    · rw [h1]; exact hfile
    · have h2 := List.mem_filter.mp h1
      rcases mem_setFile h2.1 with h3 | h3
      · exfalso
        have h4 := h2.2
        rw [h3] at h4
        simp at h4
      · exact hf e h3
  · intro fs file out pre suf heq
    have hco : commitOps file out =
        FsOp.write (file ++ ".tmp") out :: [FsOp.rename (file ++ ".tmp") file] := rfl
    rcases pre with _ | ⟨op1, pre2⟩
    · left; rfl
    · rcases pre2 with _ | ⟨op2, rest⟩
      · rw [hco] at heq
        have h1 := List.cons_eq_cons.mp heq
        left
        rw [← h1.1]
        show lookupFile (setFile fs (file ++ ".tmp") out) file = lookupFile fs file
        exact lookupFile_setFile_ne fs out (file_ne_tmp file)
      · rw [hco] at heq
        have h1 := List.cons_eq_cons.mp heq
        have h2 := List.cons_eq_cons.mp h1.2
        have hrest : rest = [] := (List.append_eq_nil.mp h2.2.symm).1
        right
        rw [← h1.1, ← h2.1, hrest]
        show lookupFile (applyFsOps fs (commitOps file out)) file = some out
        rw [applyFsOps_commit]
        exact lookupFile_setFile_same _ _ _

/-- A concrete sale addition. -/
def saleAdd1 : SaleAddition := ⟨"data/vehicles/test/test.xml", 1000, 0, 0, 0, 0, 30⟩

/-- Claim C5, counterexample: when `sales.xml` does not exist,
`write_sale_additions` writes the synthesized document directly to
`sales.xml` — a single direct write, not the claimed temp-write plus rename
(`sale.rs` line 168 versus the `commitOps` pair used everywhere else). -/
theorem claim_C5_counterexample :
    run_sale_additions [saleAdd1] ([] : Fs) =
      .ok [.write "sales.xml" (synthSalesDoc [saleAdd1])]
    ∧ (∀ out, ¬ ([FsOp.write "sales.xml" (synthSalesDoc [saleAdd1])] =
        commitOps "sales.xml" out)) := by
  refine ⟨rfl, ?_⟩
  intro out h
  simp [commitOps] at h

/-- Witness for C5: the career writer on a concrete directory commits via
temp plus rename; the commit leaves no temp file behind. -/
theorem claim_C5_witness :
    (∃ out, commitOps "careerSavegame.xml" (write_career_money 1 []) =
      commitOps "careerSavegame.xml" out)
    ∧ noTmp (applyFsOps fs0 (commitOps "careerSavegame.xml"
        (write_career_money 1 [])))
    ∧ (lookupFile (applyFsOps fs0 []) "careerSavegame.xml" =
        lookupFile fs0 "careerSavegame.xml"
      ∨ lookupFile (applyFsOps fs0 []) "careerSavegame.xml" =
        some (write_career_money 1 [])) :=
  ⟨claim_C5.1 1 fs0 _ rfl,
   claim_C5.2.2.2.2.2.2.2.2.1 fs0 "careerSavegame.xml" _ (by decide) (by decide),
   claim_C5.2.2.2.2.2.2.2.2.2 fs0 "careerSavegame.xml" (write_career_money 1 [])
     [] (commitOps "careerSavegame.xml" (write_career_money 1 [])) rfl⟩

/-! ## Claim C6: numeric serialization conventions -/

theorem digitChar_mod10_isDigit (n : Nat) : (Nat.digitChar (n % 10)).isDigit = true := by
  have hlt : n % 10 < 10 := Nat.mod_lt _ (by omega)
  exact (by decide : ∀ m : Fin 10, (Nat.digitChar m.val).isDigit = true) ⟨n % 10, hlt⟩

/-- The child-element dialect of `careerSavegame.xml`: a `statistics`
element with a `money` child whose text carries the value. -/
def careerChildDoc (s : String) : List Token :=
  [.start "statistics" [], .start "money" [], .text s, .close "money",
   .close "statistics"]

/-- Claim C6 (amended): `fmt6` output always ends in a dot followed by
exactly six decimal digits; `write_career_money` in the two attribute
dialects (self-closing and start-tag `statistics`) rewrites the `money`
attribute to the 6-decimal form and leaves other attributes unchanged;
`write_farm_finances` rewrites `money` and `loan` of the matched farm to the
6-decimal form.  In the `money`-child-element dialect, however, the money
text is written as `format!("{}", money as i64)` — the integer truncation in
minimal decimal form, not 6 decimal digits (see the counterexample). -/
theorem claim_C6 :
    (∀ q : ℚ, ∃ head : String,
        fmt6 q = head ++ "." ++ digits6 (round6abs (if q < 0 then -q else q))
        ∧ (digits6 (round6abs (if q < 0 then -q else q))).length = 6
        ∧ ∀ c ∈ (digits6 (round6abs (if q < 0 then -q else q))).data,
            c.isDigit = true)
    ∧ (∀ (money : ℚ) (attrs : List (String × String)),
        write_career_money money [.empty "statistics" attrs] =
          [.empty "statistics" (attrs.map (patchMoneyAttr money))])
    ∧ (∀ (money : ℚ) (attrs : List (String × String)),
        write_career_money money [.start "statistics" attrs, .close "statistics"] =
          [.start "statistics" (attrs.map (patchMoneyAttr money)),
           .close "statistics"])
    ∧ (∀ (money : ℚ) (v : String),
        patchMoneyAttr money ("money", v) = ("money", fmt6 money))
    ∧ (∀ (money : ℚ) (a : String × String), ¬ a.1 = "money" →
        patchMoneyAttr money a = a)
    ∧ (∀ (money : ℚ) (s : String),
        write_career_money money (careerChildDoc s) =
          careerChildDoc (toString (truncQ money)))
    ∧ (∀ (fid : Nat) (money loan : Option ℚ) (attrs : List (String × String)),
        write_farm_finances fid money loan [.start "farm" attrs] =
          [.start "farm" (if parseU8D (attrD attrs "farmId") = fid
            then attrs.map (patchFarmAttr money loan) else attrs)])
    ∧ (∀ (m : ℚ) (l : Option ℚ) (v : String),
        patchFarmAttr (some m) l ("money", v) = ("money", fmt6 m))
    ∧ (∀ (m : Option ℚ) (l : ℚ) (v : String),
        patchFarmAttr m (some l) ("loan", v) = ("loan", fmt6 l)) := by
  refine ⟨?_, ?_, ?_, ?_, ?_, ?_, ?_, ?_, ?_⟩
  · intro q
    refine ⟨(if q < 0 then "-" else "") ++
      toString (round6abs (if q < 0 then -q else q) / 1000000), rfl, rfl, ?_⟩
    intro c hc
    simp only [digits6, String.mk, List.mem_cons, List.not_mem_nil, or_false] at hc
    rcases hc with h | h | h | h | h | h <;>
      · rw [h]; exact digitChar_mod10_isDigit _
  · intro money attrs
    simp [write_career_money, career_run, career_step]
  · intro money attrs
    simp [write_career_money, career_run, career_step]
  · intro money v
    simp [patchMoneyAttr]
  · intro money a h
    simp [patchMoneyAttr, h]
  · intro money s
    simp [write_career_money, career_run, career_step, careerChildDoc]
  · intro fid money loan attrs
    by_cases hfid : parseU8D (attrD attrs "farmId") = fid
    · simp [write_farm_finances, farm_step, hfid]
    · simp [write_farm_finances, farm_step, hfid]
  · intro m l v
    simp [patchFarmAttr]
  · intro m l v
    simp [patchFarmAttr]

/-- Witness for C6: the shape property applied at a concrete value, and the
farm patch at a concrete attribute list. -/
theorem claim_C6_witness :
    (∃ head : String,
        fmt6 1 = head ++ "." ++ digits6 (round6abs (if (1:ℚ) < 0 then -1 else 1))
        ∧ (digits6 (round6abs (if (1:ℚ) < 0 then -1 else 1))).length = 6
        ∧ ∀ c ∈ (digits6 (round6abs (if (1:ℚ) < 0 then -1 else 1))).data,
            c.isDigit = true)
    ∧ patchMoneyAttr 1 ("money", "7") = ("money", fmt6 1)
    ∧ patchMoneyAttr 1 ("playTime", "7") = ("playTime", "7") :=
  ⟨claim_C6.1 1, claim_C6.2.2.2.1 1 "7",
   claim_C6.2.2.2.2.1 1 ("playTime", "7") (by decide)⟩

theorem truncQ_half : truncQ (1/2 : ℚ) = 0 := by
  unfold truncQ
  rw [if_pos (by norm_num)]
  rw [Int.floor_eq_zero_iff]
  constructor <;> norm_num

/-- Claim C6, counterexample: in the `money`-child-element dialect,
`write_career_money` writes `format!("{}", money as i64)` (`career.rs`
line 56), not a 6-decimal serialization: with money `1/2` the emitted text
is `"0"`, which cannot be split as anything followed by a dot and six
digits. -/
theorem claim_C6_counterexample :
    write_career_money (1/2) (careerChildDoc "500000.000000") = careerChildDoc "0"
    ∧ (∀ head digits : String,
        "0" = head ++ "." ++ digits → ¬ digits.length = 6) := by
  constructor
  · have h0 : toString (truncQ ((2:ℚ)⁻¹)) = "0" := by
      rw [show ((2:ℚ)⁻¹) = 1/2 by norm_num, truncQ_half]; rfl
    simp [write_career_money, career_run, career_step, careerChildDoc, h0]
  · intro head digits he hl
    have hlen := congrArg String.length he
    rw [String.length_append, String.length_append] at hlen
    have h1 : ("0" : String).length = 1 := rfl
    have h2 : ("." : String).length = 1 := rfl
    omega

/-! ## Claim C7: blank-delete of a greatDemand slot -/

/-- An `economy.xml` whose single `greatDemand` slot is a start-tag element
with a child element. -/
def ecoLeakDoc : List Token :=
  [.start "greatDemands" [], .start "greatDemand" [("uniqueId", "d1")],
   .start "x" [], .text "t", .close "x", .close "greatDemand",
   .close "greatDemands"]

/-- Claim C7 is the intended behaviour, and the code deviates from it:
blank-deleting the `greatDemand` at position 0 of `ecoLeakDoc` emits the
attribute-free `<greatDemand/>` and advances the counter once as claimed,
but the descendant close tag `</x>` leaks into the output, because the end
tag arm of the `write_economy_changes` loop (economy.rs lines 93-108) never
consults the skip flag for tags other than `greatDemand` — contradicting
the source's own comment, "Delete: skip this element entirely".  The output
is not even balanced XML. -/
theorem claim_C7 :
    write_economy_changes ⟨none, none, some [0]⟩ ecoLeakDoc =
      [.start "greatDemands" [], .empty "greatDemand" [], .close "x",
       .close "greatDemands"]
    ∧ Token.close "x" ∈ write_economy_changes ⟨none, none, some [0]⟩ ecoLeakDoc := by
  exact ⟨rfl, by decide⟩

/-! ## Token-machine lemmas for the vehicle and sale writers -/

/-- Balance check: start tags minus end tags, never dipping below zero,
zero at the end — the interior of a well-formed element. -/
def balB : Nat → List Token → Bool
  | d, [] => d == 0
  | d, .start _ _ :: ts => balB (d + 1) ts
  | d, .close _ :: ts => (!(d == 0)) && balB (d - 1) ts
  | d, .empty _ _ :: ts => balB d ts
  | d, .text _ :: ts => balB d ts
  | d, .other _ :: ts => balB d ts

/-- The number of start tags with the given name. -/
def startCount (tag : String) : List Token → Nat
  | [] => 0
  | .start tg _ :: ts => (if tg = tag then 1 else 0) + startCount tag ts
  | _ :: ts => startCount tag ts

theorem startCount_append (tag : String) (xs ys : List Token) :
    startCount tag (xs ++ ys) = startCount tag xs + startCount tag ys := by
  induction xs with
  | nil => simp [startCount]
  | cons t ts ih =>
    cases t <;> (simp [startCount, ih]; try omega)

theorem vehicle_run_append (cs : List VehicleChange) (xs ys : List Token) :
    ∀ s : VehState,
      vehicle_run cs s (xs ++ ys) =
        ((vehicle_run cs (vehicle_run cs s xs).1 ys).1,
         (vehicle_run cs s xs).2 ++ (vehicle_run cs (vehicle_run cs s xs).1 ys).2) := by
  induction xs with
  | nil => intro s; simp [vehicle_run]
  | cons t ts ih => intro s; simp [vehicle_run, ih, List.append_assoc]

theorem sale_run_append (cs : List SaleChange) (xs ys : List Token) :
    ∀ s : SaleState,
      sale_run cs s (xs ++ ys) =
        ((sale_run cs (sale_run cs s xs).1 ys).1,
         (sale_run cs s xs).2 ++ (sale_run cs (sale_run cs s xs).1 ys).2) := by
  induction xs with
  | nil => intro s; simp [sale_run]
  | cons t ts ih => intro s; simp [sale_run, ih, List.append_assoc]

/-- A token the vehicle writer's addressing strategy does not match: any
token that is not a `vehicle` start tag whose `id` attribute is a key of
the change map. -/
def vehNoMatchB (cs : List VehicleChange) : Token → Bool
  | .start tag attrs =>
    if tag = "vehicle" then (lookupVehicle cs (attrD attrs "id")).isNone else true
  | _ => true

theorem vehicle_step_pass (cs : List VehicleChange) (s : VehState) (t : Token)
    (hs : s.skip = false) (hid : s.curId = none) (hf : s.fill = none)
    (ht : vehNoMatchB cs t = true) :
    ∃ s2 : VehState, vehicle_step cs s t = (s2, [t])
      ∧ s2.skip = false ∧ s2.curId = none ∧ s2.fill = none := by
  cases t with
  | start tag attrs =>
    by_cases htag : tag = "vehicle"
    · have hnone : lookupVehicle cs (attrD attrs "id") = none := by
        simpa [vehNoMatchB, htag] using ht
      refine ⟨{s with curId := none, fill := none}, ?_, hs, rfl, rfl⟩
      simp [vehicle_step, hs, htag, hnone]
    · by_cases hfu : tag = "fillUnit" ∧ s.curId.isSome
      · exact absurd (hid ▸ hfu.2) (by simp)
      · refine ⟨s, ?_, hs, hid, hf⟩
        simp [vehicle_step, hs, htag, hfu]
  | empty tag attrs =>
    by_cases hu : tag = "unit" ∧ s.inFillUnit = true
    · refine ⟨s, ?_, hs, hid, hf⟩
      simp [vehicle_step, hs, hu, hf]
    · refine ⟨s, ?_, hs, hid, hf⟩
      by_cases hu2 : tag = "unit" ∧ s.inFillUnit
      · exact absurd ⟨hu2.1, hu2.2⟩ hu
      · simp [vehicle_step, hs, hu2]
  | close tag =>
    by_cases htag : tag = "vehicle"
    · exact ⟨{s with curId := none, fill := none}, by simp [vehicle_step, hs, htag],
        hs, rfl, rfl⟩
    · by_cases hfu : tag = "fillUnit"
      · exact ⟨{s with inFillUnit := false}, by simp [vehicle_step, hs, htag, hfu],
          hs, hid, hf⟩
      · exact ⟨s, by simp [vehicle_step, hs, htag, hfu], hs, hid, hf⟩
  | text str => exact ⟨s, by simp [vehicle_step, hs], hs, hid, hf⟩
  | other str => exact ⟨s, by simp [vehicle_step, hs], hs, hid, hf⟩

theorem vehicle_run_pass (cs : List VehicleChange) (ts : List Token) :
    ∀ s : VehState, s.skip = false → s.curId = none → s.fill = none →
      (∀ t ∈ ts, vehNoMatchB cs t = true) →
      ∃ s2 : VehState, vehicle_run cs s ts = (s2, ts)
        ∧ s2.skip = false ∧ s2.curId = none ∧ s2.fill = none := by
  induction ts with
  | nil => intro s hs hid hf _; exact ⟨s, by simp [vehicle_run], hs, hid, hf⟩
  | cons t ts ih =>
    intro s hs hid hf hall
    obtain ⟨s2, hstep, h1, h2, h3⟩ :=
      vehicle_step_pass cs s t hs hid hf (hall t (List.mem_cons_self _ _))
    obtain ⟨s3, hrun, g1, g2, g3⟩ :=
      ih s2 h1 h2 h3 (fun u hu => hall u (List.mem_cons_of_mem _ hu))
    refine ⟨s3, ?_, g1, g2, g3⟩
    simp [vehicle_run, hstep, hrun]

theorem vehicle_run_skip (cs : List VehicleChange) (ts : List Token) :
    ∀ (d : Nat) (s : VehState), s.skip = true → balB d ts = true →
      s.depth = d + 1 →
      vehicle_run cs s ts = ({s with depth := 1}, []) := by
  induction ts with
  | nil =>
    intro d s hs hb hd
    have hd0 : d = 0 := by simpa [balB] using hb
    have : ({s with depth := 1} : VehState) = s := by
      cases s; simp_all
    rw [this]
    simp [vehicle_run]
  | cons t ts ih =>
    intro d s hs hb hd
    obtain ⟨cid, sk, dep, ifu, fl⟩ := s
    simp only at hs hd
    subst hs; subst hd
    cases t with
    | start tag attrs =>
      have hb2 : balB (d + 1) ts = true := hb
      have hrec := ih (d + 1) ⟨cid, true, (d + 1) + 1, ifu, fl⟩ rfl hb2 rfl
      simp [vehicle_run, vehicle_step, hrec]
    | close tag =>
      have hdne : ¬ d = 0 := by
        rcases (Bool.and_eq_true _ _).mp hb with ⟨h1, _⟩
        simpa using h1
      have hb2 : balB (d - 1) ts = true := ((Bool.and_eq_true _ _).mp hb).2
      have hrec := ih (d - 1) ⟨cid, true, d, ifu, fl⟩ rfl hb2
        (show d = (d - 1) + 1 by omega)
      by_cases htag : tag = "vehicle"
      · simp [vehicle_run, vehicle_step, htag, hdne, hrec]
      · simp [vehicle_run, vehicle_step, htag, hrec]
    | empty tag attrs =>
      have hrec := ih d ⟨cid, true, d + 1, ifu, fl⟩ rfl hb rfl
      simp [vehicle_run, vehicle_step, hrec]
    | text str =>
      have hrec := ih d ⟨cid, true, d + 1, ifu, fl⟩ rfl hb rfl
      simp [vehicle_run, vehicle_step, hrec]
    | other str =>
      have hrec := ih d ⟨cid, true, d + 1, ifu, fl⟩ rfl hb rfl
      simp [vehicle_run, vehicle_step, hrec]

/-- No `item` start tag of `ts` — the running position starting at `i` —
is a key of the sale change map: the positional addressing strategy
matches nothing in `ts`. -/
def noSaleMatchB (cs : List SaleChange) : Nat → List Token → Bool
  | _, [] => true
  | i, .start tag _ :: ts =>
    if tag = "item" then (lookupSale cs i).isNone && noSaleMatchB cs (i + 1) ts
    else noSaleMatchB cs i ts
  | i, _ :: ts => noSaleMatchB cs i ts

theorem sale_run_pass (cs : List SaleChange) (ts : List Token) :
    ∀ s : SaleState, s.skip = false → noSaleMatchB cs s.idx ts = true →
      sale_run cs s ts = ({s with idx := s.idx + startCount "item" ts}, ts) := by
  induction ts with
  | nil =>
    intro s hs _
    simp [sale_run, startCount]
  | cons t ts ih =>
    intro s hs hnm
    obtain ⟨idx, sk, dep⟩ := s
    simp only at hs
    subst hs
    cases t with
    | start tag attrs =>
      by_cases htag : tag = "item"
      · have hparts : lookupSale cs idx = none ∧ noSaleMatchB cs (idx + 1) ts = true := by
          simpa [noSaleMatchB, htag] using hnm
        have hrec := ih ⟨idx + 1, false, dep⟩ rfl (by simpa using hparts.2)
        simp [sale_run, sale_step, htag, hparts.1, hrec, startCount]
        omega
      · have hrec := ih ⟨idx, false, dep⟩ rfl (by simpa [noSaleMatchB, htag] using hnm)
        simp [sale_run, sale_step, htag, hrec, startCount]
    | close tag =>
      have hrec := ih ⟨idx, false, dep⟩ rfl (by simpa [noSaleMatchB] using hnm)
      simp [sale_run, sale_step, hrec, startCount]
    | empty tag attrs =>
      have hrec := ih ⟨idx, false, dep⟩ rfl (by simpa [noSaleMatchB] using hnm)
      simp [sale_run, sale_step, hrec, startCount]
    | text str =>
      have hrec := ih ⟨idx, false, dep⟩ rfl (by simpa [noSaleMatchB] using hnm)
      simp [sale_run, sale_step, hrec, startCount]
    | other str =>
      have hrec := ih ⟨idx, false, dep⟩ rfl (by simpa [noSaleMatchB] using hnm)
      simp [sale_run, sale_step, hrec, startCount]

theorem sale_run_skip (cs : List SaleChange) (ts : List Token) :
    ∀ (d : Nat) (s : SaleState), s.skip = true → balB d ts = true →
      s.depth = d + 1 →
      sale_run cs s ts = ({s with depth := 1}, []) := by
  induction ts with
  | nil =>
    intro d s hs hb hd
    have hd0 : d = 0 := by simpa [balB] using hb
    have heq : ({s with depth := 1} : SaleState) = s := by
      cases s; simp_all
    rw [heq]
    simp [sale_run]
  | cons t ts ih =>
    intro d s hs hb hd
    obtain ⟨idx, sk, dep⟩ := s
    simp only at hs hd
    subst hs; subst hd
    cases t with
    | start tag attrs =>
      have hb2 : balB (d + 1) ts = true := hb
      have hrec := ih (d + 1) ⟨idx, true, (d + 1) + 1⟩ rfl hb2 rfl
      simp [sale_run, sale_step, hrec]
    | close tag =>
      have hdne : ¬ d = 0 := by
        rcases (Bool.and_eq_true _ _).mp hb with ⟨h1, _⟩
        simpa using h1
      have hb2 : balB (d - 1) ts = true := ((Bool.and_eq_true _ _).mp hb).2
      have hrec := ih (d - 1) ⟨idx, true, d⟩ rfl hb2
        (show d = (d - 1) + 1 by omega)
      by_cases htag : tag = "item"
      · simp [sale_run, sale_step, htag, hdne, hrec]
      · simp [sale_run, sale_step, htag, hrec]
    | empty tag attrs =>
      have hrec := ih d ⟨idx, true, d + 1⟩ rfl hb rfl
      simp [sale_run, sale_step, hrec]
    | text str =>
      have hrec := ih d ⟨idx, true, d + 1⟩ rfl hb rfl
      simp [sale_run, sale_step, hrec]
    | other str =>
      have hrec := ih d ⟨idx, true, d + 1⟩ rfl hb rfl
      simp [sale_run, sale_step, hrec]

theorem lookupVehicle_single (c : VehicleChange) :
    lookupVehicle [c] c.unique_id = some c := by
  simp [lookupVehicle]

theorem lookupSale_single (c : SaleChange) : lookupSale [c] c.index = some c := by
  simp [lookupSale]

theorem lookupSale_single_ne (c : SaleChange) (i : Nat) (h : ¬ c.index = i) :
    lookupSale [c] i = none := by
  simp [lookupSale, h]

theorem noSaleMatchB_lt (c : SaleChange) (ts : List Token) :
    ∀ i : Nat, i + startCount "item" ts ≤ c.index → noSaleMatchB [c] i ts = true := by
  induction ts with
  | nil => intro i _; rfl
  | cons t ts ih =>
    intro i hle
    cases t with
    | start tag attrs =>
      by_cases htag : tag = "item"
      · have h1 : ¬ c.index = i := by
          simp [startCount, htag] at hle; omega
        have h2 := ih (i + 1) (by simp [startCount, htag] at hle; omega)
        simp [noSaleMatchB, htag, lookupSale_single_ne c i h1, h2]
      · have h2 := ih i (by simpa [startCount, htag] using hle)
        simp [noSaleMatchB, htag, h2]
    | close tag => exact ih i (by simpa [startCount] using hle)
    | empty tag attrs => exact ih i (by simpa [startCount] using hle)
    | text str => exact ih i (by simpa [startCount] using hle)
    | other str => exact ih i (by simpa [startCount] using hle)

theorem noSaleMatchB_gt (c : SaleChange) (ts : List Token) :
    ∀ i : Nat, c.index < i → noSaleMatchB [c] i ts = true := by
  induction ts with
  | nil => intro i _; rfl
  | cons t ts ih =>
    intro i hlt
    cases t with
    | start tag attrs =>
      by_cases htag : tag = "item"
      · have h1 : ¬ c.index = i := by omega
        simp [noSaleMatchB, htag, lookupSale_single_ne c i h1, ih (i + 1) (by omega)]
      · simp [noSaleMatchB, htag, ih i hlt]
    | close tag => exact ih i hlt
    | empty tag attrs => exact ih i hlt
    | text str => exact ih i hlt
    | other str => exact ih i hlt

/-! ## Claim C8: hard delete of a matched element -/

/-- Claim C8: hard-deleting a matched element removes exactly that element
and its whole subtree.  For the vehicle writer, with a single change keyed
to the element's `id` attribute and `delete` set, and a document
`pre ++ <vehicle …> body </vehicle> ++ post` in which no token of `pre` or
`post` matches and `body` is balanced, the output is exactly `pre ++ post`:
skip mode starts at depth 1, counts every start tag up and every end tag
down, emits nothing in between, and resumes after the matching close — so
when the body holds no nested `vehicle` start the count of `vehicle`
elements drops by exactly one.  The same holds for the sale writer with a
positionally-matched `item` (the element whose running position equals the
change's index). -/
theorem claim_C8 :
    (∀ (c : VehicleChange) (pre body post : List Token)
        (attrs : List (String × String)),
      c.delete = true →
      attrD attrs "id" = c.unique_id →
      (∀ t ∈ pre, vehNoMatchB [c] t = true) →
      (∀ t ∈ post, vehNoMatchB [c] t = true) →
      balB 0 body = true →
      write_vehicle_changes [c]
          (pre ++ Token.start "vehicle" attrs :: (body ++ Token.close "vehicle" :: post))
        = pre ++ post
      ∧ (startCount "vehicle" body = 0 →
          startCount "vehicle" (pre ++ post) + 1 =
            startCount "vehicle"
              (pre ++ Token.start "vehicle" attrs ::
                (body ++ Token.close "vehicle" :: post))))
    ∧ (∀ (c : SaleChange) (pre body post : List Token)
        (attrs : List (String × String)),
      c.delete = true →
      startCount "item" pre = c.index →
      balB 0 body = true →
      write_sale_changes [c]
          (pre ++ Token.start "item" attrs :: (body ++ Token.close "item" :: post))
        = pre ++ post
      ∧ (startCount "item" body = 0 →
          startCount "item" (pre ++ post) + 1 =
            startCount "item"
              (pre ++ Token.start "item" attrs ::
                (body ++ Token.close "item" :: post)))) := by
  constructor
  · intro c pre body post attrs hdel hid hpre hpost hbal
    obtain ⟨s1, hpre_run, hs1, hid1, hf1⟩ :=
      vehicle_run_pass [c] pre VehState.init rfl rfl rfl hpre
    obtain ⟨cid1, sk1, dep1, ifu1, fl1⟩ := s1
    simp only at hs1 hid1 hf1
    subst hs1; subst hid1; subst hf1
    have hlook : lookupVehicle [c] (attrD attrs "id") = some c := by
      rw [hid]; exact lookupVehicle_single c
    have hskip := vehicle_run_skip [c] body 0
      ⟨some (attrD attrs "id"), true, 1, ifu1, none⟩ rfl hbal rfl
    obtain ⟨s4, hpost_run, _, _, _⟩ :=
      vehicle_run_pass [c] post ⟨none, false, 0, ifu1, none⟩ rfl rfl rfl hpost
    have hmain : write_vehicle_changes [c]
        (pre ++ Token.start "vehicle" attrs :: (body ++ Token.close "vehicle" :: post))
        = pre ++ post := by
      simp only [write_vehicle_changes, vehicle_run_append, hpre_run]
      simp only [vehicle_run, vehicle_step, hlook, hdel]
      simp only [if_true, Bool.false_eq_true, if_false, reduceIte]
      simp only [vehicle_run_append, hskip]
      simp only [vehicle_run, vehicle_step]
      simp only [reduceIte]
      simp only [hpost_run]
      simp
    refine ⟨hmain, ?_⟩
    intro hb0
    simp [startCount_append, startCount, hb0]
    omega
  · intro c pre body post attrs hdel hcount hbal
    have hpre_run := sale_run_pass [c] pre SaleState.init rfl
      (noSaleMatchB_lt c pre 0 (by simp [hcount]))
    have hlook : lookupSale [c] (startCount "item" pre) = some c := by
      rw [hcount]; exact lookupSale_single c
    have hskip := sale_run_skip [c] body 0
      ⟨startCount "item" pre + 1, true, 1⟩ rfl hbal rfl
    have hpost_run := sale_run_pass [c] post
      ⟨startCount "item" pre + 1, false, 0⟩ rfl
      (noSaleMatchB_gt c post _
        (show c.index < startCount "item" pre + 1 by omega))
    have hmain : write_sale_changes [c]
        (pre ++ Token.start "item" attrs :: (body ++ Token.close "item" :: post))
        = pre ++ post := by
      simp only [write_sale_changes, sale_run_append, hpre_run]
      simp [sale_run, sale_step, SaleState.init, hlook, hdel, sale_run_append,
        hskip, hpost_run]
    refine ⟨hmain, ?_⟩
    intro hb0
    simp [startCount_append, startCount, hb0]
    omega

/-- A delete-only vehicle change keyed to id `"2"`. -/
def vDel2 : VehicleChange :=
  ⟨"2", true, none, none, none, none, none, none, none, none⟩

/-- A delete-only sale change at position 1. -/
def sDel1 : SaleChange := ⟨1, true, none, none, none, none, none, none⟩

/-- Witness for C8: a concrete three-vehicle document losing its middle
vehicle, and a concrete two-item sale document losing item 1. -/
theorem claim_C8_witness :
    (write_vehicle_changes [vDel2]
        ([.start "vehicles" [], .start "vehicle" [("id", "1")], .close "vehicle"] ++
          Token.start "vehicle" [("id", "2")] ::
          ([.start "y" [], .text "t", .close "y", .empty "z" []] ++
            Token.close "vehicle" ::
            [.start "vehicle" [("id", "3")], .close "vehicle", .close "vehicles"]))
      = [.start "vehicles" [], .start "vehicle" [("id", "1")], .close "vehicle"] ++
          [.start "vehicle" [("id", "3")], .close "vehicle", .close "vehicles"]
      ∧ (startCount "vehicle" [Token.start "y" [], .text "t", .close "y", .empty "z" []] = 0 →
          startCount "vehicle"
              ([.start "vehicles" [], .start "vehicle" [("id", "1")], .close "vehicle"] ++
                [.start "vehicle" [("id", "3")], .close "vehicle", .close "vehicles"]) + 1 =
            startCount "vehicle"
              ([.start "vehicles" [], .start "vehicle" [("id", "1")], .close "vehicle"] ++
                Token.start "vehicle" [("id", "2")] ::
                ([.start "y" [], .text "t", .close "y", .empty "z" []] ++
                  Token.close "vehicle" ::
                  [.start "vehicle" [("id", "3")], .close "vehicle", .close "vehicles"]))))
    ∧ (write_sale_changes [sDel1]
        ([.start "sales" [], .start "item" [("a", "x")], .close "item"] ++
          Token.start "item" [("b", "y")] ::
          ([.empty "w" []] ++ Token.close "item" :: [.close "sales"]))
      = [.start "sales" [], .start "item" [("a", "x")], .close "item"] ++ [.close "sales"]
      ∧ (startCount "item" [Token.empty "w" []] = 0 →
          startCount "item"
              ([.start "sales" [], .start "item" [("a", "x")], .close "item"] ++
                [.close "sales"]) + 1 =
            startCount "item"
              ([.start "sales" [], .start "item" [("a", "x")], .close "item"] ++
                Token.start "item" [("b", "y")] ::
                ([.empty "w" []] ++ Token.close "item" :: [.close "sales"])))) :=
  ⟨claim_C8.1 vDel2
      [.start "vehicles" [], .start "vehicle" [("id", "1")], .close "vehicle"]
      [.start "y" [], .text "t", .close "y", .empty "z" []]
      [.start "vehicle" [("id", "3")], .close "vehicle", .close "vehicles"]
      [("id", "2")] rfl rfl (by decide) (by decide) (by decide),
   claim_C8.2 sDel1
      [.start "sales" [], .start "item" [("a", "x")], .close "item"]
      [.empty "w" []] [.close "sales"] [("b", "y")] rfl (by decide) (by decide)⟩

/-! ## Claim C9: fill-unit sub-patches -/

/-- The fate of one `unit` element under the fill-unit sub-patch list: the
first sub-patch whose `index` field equals the element's parsed `index`
attribute rewrites `fillLevel`; otherwise the element passes through. -/
def patchUnitTok (fcs : List FillUnitChange) (attrs : List (String × String)) : Token :=
  match fcs.find? (fun f => f.index = parseU32D (attrD attrs "index")) with
  | some fc => .empty "unit" (patch_fill_unit attrs fc)
  | none => .empty "unit" attrs

theorem vehicle_run_units (cs : List VehicleChange) (fcs : List FillUnitChange)
    (units : List (List (String × String))) :
    ∀ s : VehState, s.skip = false → s.inFillUnit = true → s.fill = some fcs →
      vehicle_run cs s (units.map (fun a => Token.empty "unit" a)) =
        (s, units.map (patchUnitTok fcs)) := by
  induction units with
  | nil => intro s _ _ _; simp [vehicle_run]
  | cons a units ih =>
    intro s hs hifu hf
    have hrec := ih s hs hifu hf
    rcases hfind : fcs.find? (fun f => f.index = parseU32D (attrD a "index")) with _ | fc <;>
      simp [vehicle_run, vehicle_step, hs, hifu, hf, hfind, patchUnitTok, hrec]

/-- Claim C9 (amended): a vehicle change's fill-unit sub-patches are scoped
to the one matched vehicle's `fillUnit` children, and within it each `unit`
element is selected by its `index` attribute being equal to a sub-patch's
`index` field — not by its position among the `unit` siblings (see the
counterexample).  Tokens outside the matched vehicle, including every other
vehicle's `unit` elements, pass through unchanged. -/
theorem claim_C9 (c : VehicleChange) (pre post : List Token)
    (vattrs fattrs : List (String × String))
    (units : List (List (String × String))) (fcs : List FillUnitChange)
    (hdel : c.delete = false) (hfu : c.fill_units = some fcs)
    (hid : attrD vattrs "id" = c.unique_id)
    (hpre : ∀ t ∈ pre, vehNoMatchB [c] t = true)
    (hpost : ∀ t ∈ post, vehNoMatchB [c] t = true) :
    write_vehicle_changes [c]
      (pre ++ Token.start "vehicle" vattrs :: Token.start "fillUnit" fattrs ::
        (units.map (fun a => Token.empty "unit" a) ++
          Token.close "fillUnit" :: Token.close "vehicle" :: post))
    = pre ++ Token.start "vehicle" (patch_vehicle_start vattrs c) ::
        Token.start "fillUnit" fattrs ::
        (units.map (patchUnitTok fcs) ++
          Token.close "fillUnit" :: Token.close "vehicle" :: post) := by
  obtain ⟨s1, hpre_run, hs1, hid1, hf1⟩ :=
    vehicle_run_pass [c] pre VehState.init rfl rfl rfl hpre
  obtain ⟨cid1, sk1, dep1, ifu1, fl1⟩ := s1
  simp only at hs1 hid1 hf1
  subst hs1; subst hid1; subst hf1
  have hlook : lookupVehicle [c] (attrD vattrs "id") = some c := by
    rw [hid]; exact lookupVehicle_single c
  have hunits := vehicle_run_units [c] fcs units
    ⟨some (attrD vattrs "id"), false, dep1, true, some fcs⟩ rfl rfl rfl
  obtain ⟨s4, hpost_run, _, _, _⟩ :=
    vehicle_run_pass [c] post ⟨none, false, dep1, false, none⟩ rfl rfl rfl hpost
  simp only [write_vehicle_changes, vehicle_run_append, hpre_run]
  simp [vehicle_run, vehicle_step, hlook, hdel, hfu, vehicle_run_append, hunits,
    hpost_run]

/-- A vehicle change carrying one fill-unit sub-patch with index 0. -/
def cFill : VehicleChange :=
  ⟨"v1", false, none, none, none, none, none, none, none, some [⟨0, 42⟩]⟩

/-- A one-vehicle document whose only `unit` element — position 0 among the
`fillUnit` children — carries the attribute `index="5"`. -/
def docC9 : List Token :=
  [.start "vehicle" [("id", "v1")], .start "fillUnit" [],
   .empty "unit" [("index", "5"), ("fillLevel", "10")],
   .close "fillUnit", .close "vehicle"]

theorem digits6_length (n : Nat) : (digits6 n).length = 6 := rfl

theorem fmt6_ne_short (q : ℚ) (s : String) (h : s.length < 7) : ¬ fmt6 q = s := by
  intro he
  have hlen := congrArg String.length he
  have h2 : (fmt6 q).length =
      ((if q < 0 then "-" else "") ++
        toString (round6abs (if q < 0 then -q else q) / 1000000)).length + 1 + 6 := by
    simp only [fmt6, String.length_append, digits6_length]
    have hdot : ("." : String).length = 1 := rfl
    omega
  omega

/-- Claim C9, counterexample: the sub-patch `{index: 0, fillLevel: 42}`
addresses, per the claim, the `unit` element at position 0 of the matched
vehicle's `fillUnit` children — here the only `unit`, whose `fillLevel`
would become the 6-decimal form of 42 (never the 2-character string `"10"`).
The code instead matches on the `index` attribute (`vehicle.rs` lines
85-86): `"5" ≠ 0`, so the document is returned entirely unchanged. -/
theorem claim_C9_counterexample :
    write_vehicle_changes [cFill] docC9 = docC9
    ∧ cFill.fill_units = some [⟨0, (42 : ℚ)⟩]
    ∧ ¬ fmt6 42 = "10" :=
  ⟨rfl, rfl, fmt6_ne_short 42 "10" (by decide)⟩

/-- Witness for C9: two `unit` elements with attribute indices 5 and 0; the
sub-patch with index 0 selects the second element (attribute match), and a
second vehicle after the matched one is untouched. -/
theorem claim_C9_witness :
    write_vehicle_changes [cFill]
      ([] ++ Token.start "vehicle" [("id", "v1")] :: Token.start "fillUnit" [] ::
        ([[("index", "5"), ("fillLevel", "10")],
          [("index", "0"), ("fillLevel", "1")]].map (fun a => Token.empty "unit" a) ++
          Token.close "fillUnit" :: Token.close "vehicle" ::
          [.start "vehicle" [("id", "v2")], .empty "unit" [("index", "0")],
           .close "vehicle"]))
    = [] ++ Token.start "vehicle" (patch_vehicle_start [("id", "v1")] cFill) ::
        Token.start "fillUnit" [] ::
        ([[("index", "5"), ("fillLevel", "10")],
          [("index", "0"), ("fillLevel", "1")]].map (patchUnitTok [⟨0, 42⟩]) ++
          Token.close "fillUnit" :: Token.close "vehicle" ::
          [.start "vehicle" [("id", "v2")], .empty "unit" [("index", "0")],
           .close "vehicle"]) :=
  claim_C9 cFill []
    [.start "vehicle" [("id", "v2")], .empty "unit" [("index", "0")], .close "vehicle"]
    [("id", "v1")] []
    [[("index", "5"), ("fillLevel", "10")], [("index", "0"), ("fillLevel", "1")]]
    [⟨0, 42⟩] rfl rfl rfl (by decide) (by decide)

/-! ## Claim C1: the frame contract of the streaming patchers -/

/-- A token the farm writer does not match: anything but a `farm` start tag
whose `farmId` attribute parses to the target id. -/
def farmNoMatchB (fid : Nat) : Token → Bool
  | .start tag attrs =>
    if tag = "farm" ∧ parseU8D (attrD attrs "farmId") = fid then false else true
  | _ => true

theorem patchVehicleAttr_key (c : VehicleChange) (a : String × String) :
    (patchVehicleAttr c a).1 = a.1 := by
  unfold patchVehicleAttr
  split_ifs with h1 h2 h3 h4 h5 <;> simp_all

theorem patchItemAttr_key (c : SaleChange) (a : String × String) :
    (patchItemAttr c a).1 = a.1 := by
  unfold patchItemAttr
  split_ifs with h1 h2 h3 h4 h5 h6 <;> simp_all

/-- A change whose only `Some` field among the vehicle-element fields is
`damage`. -/
def cDmg : VehicleChange :=
  ⟨"v1", false, none, none, none, none, none, some 42, none, none⟩

/-- Claim C1, counterexample.  The changeset carries `Some(42.0)` for
`damage`, and the matched vehicle element has a `damage` attribute, yet
`patch_vehicle_start` copies it byte-for-byte: `VehicleChange.damage` (and
`wear`) appear in no arm of the match (`vehicle.rs` lines 167-202), so the
claimed "rewrites exactly those attributes for which the changeset carries
Some" is false — the rewrite would have produced the 6-decimal form of 42,
never the original `"0.1"`. -/
theorem claim_C1_counterexample :
    cDmg.damage = some (42 : ℚ)
    ∧ patch_vehicle_start [("damage", "0.1")] cDmg = [("damage", "0.1")]
    ∧ ¬ fmt6 42 = "0.1" :=
  ⟨rfl, rfl, fmt6_ne_short 42 "0.1" (by decide)⟩

/-- Claim C1 (amended): the frame contract.  Every token not matched by the
writer's addressing strategy is emitted unmodified (vehicle writer: no
`vehicle` start tag whose `id` is a change key; sale writer: no `item` at a
change's running position; farm writer: no `farm` with the target
`farmId`).  For a matched element the rebuilt start tag keeps the attribute
names in their original order and never adds an attribute; the attributes
rewritten are exactly those among `age`, `price`, `farmId`,
`propertyState`, `operatingTime` (vehicles) and `price`, `damage`, `wear`,
`age`, `operatingTime`, `timeLeft` (sale items) for which the changeset
carries `Some`; every other attribute's value — including a `damage` or
`wear` attribute despite `Some` values in the vehicle changeset, and any
attribute unknown to the model — is copied unchanged. -/
theorem claim_C1 :
    (∀ (cs : List VehicleChange) (ts : List Token),
        (∀ t ∈ ts, vehNoMatchB cs t = true) → write_vehicle_changes cs ts = ts)
    ∧ (∀ (cs : List SaleChange) (ts : List Token),
        noSaleMatchB cs 0 ts = true → write_sale_changes cs ts = ts)
    ∧ (∀ (fid : Nat) (m l : Option ℚ) (ts : List Token),
        (∀ t ∈ ts, farmNoMatchB fid t = true) → write_farm_finances fid m l ts = ts)
    ∧ (∀ (c : VehicleChange) (attrs : List (String × String)),
        (patch_vehicle_start attrs c).map Prod.fst = attrs.map Prod.fst)
    ∧ (∀ (c : SaleChange) (attrs : List (String × String)),
        (patch_item_start attrs c).map Prod.fst = attrs.map Prod.fst)
    ∧ (∀ (c : VehicleChange) (a : String × String),
        ¬ (a.1 = "age" ∧ c.age.isSome) → ¬ (a.1 = "price" ∧ c.price.isSome) →
        ¬ (a.1 = "farmId" ∧ c.farm_id.isSome) →
        ¬ (a.1 = "propertyState" ∧ c.property_state.isSome) →
        ¬ (a.1 = "operatingTime" ∧ c.operating_time.isSome) →
        patchVehicleAttr c a = a)
    ∧ (∀ (c : SaleChange) (a : String × String),
        ¬ (a.1 = "price" ∧ c.price.isSome) → ¬ (a.1 = "damage" ∧ c.damage.isSome) →
        ¬ (a.1 = "wear" ∧ c.wear.isSome) → ¬ (a.1 = "age" ∧ c.age.isSome) →
        ¬ (a.1 = "operatingTime" ∧ c.operating_time.isSome) →
        ¬ (a.1 = "timeLeft" ∧ c.time_left.isSome) →
        patchItemAttr c a = a)
    ∧ (∀ (c : VehicleChange) (v : String) (q : ℚ),
        c.age = some q → patchVehicleAttr c ("age", v) = ("age", fmt6 q))
    ∧ (∀ (c : VehicleChange) (v : String) (q : ℚ),
        c.price = some q → patchVehicleAttr c ("price", v) = ("price", fmt6 q))
    ∧ (∀ (c : VehicleChange) (v : String) (n : Nat),
        c.farm_id = some n → patchVehicleAttr c ("farmId", v) = ("farmId", toString n))
    ∧ (∀ (c : VehicleChange) (v ps : String),
        c.property_state = some ps →
        patchVehicleAttr c ("propertyState", v) =
          ("propertyState", property_state_to_u8 ps))
    ∧ (∀ (c : VehicleChange) (v : String) (q : ℚ),
        c.operating_time = some q →
        patchVehicleAttr c ("operatingTime", v) = ("operatingTime", fmt6 (q * 60)))
    ∧ (∀ (c : SaleChange) (v : String) (n : Nat),
        c.price = some n → patchItemAttr c ("price", v) = ("price", toString n))
    ∧ (∀ (c : SaleChange) (v : String) (q : ℚ),
        c.damage = some q → patchItemAttr c ("damage", v) = ("damage", fmt6 q))
    ∧ (∀ (c : SaleChange) (v : String) (q : ℚ),
        c.wear = some q → patchItemAttr c ("wear", v) = ("wear", fmt6 q))
    ∧ (∀ (c : SaleChange) (v : String) (n : Nat),
        c.age = some n → patchItemAttr c ("age", v) = ("age", toString n))
    ∧ (∀ (c : SaleChange) (v : String) (q : ℚ),
        c.operating_time = some q →
        patchItemAttr c ("operatingTime", v) = ("operatingTime", fmt6 (q * 60)))
    ∧ (∀ (c : SaleChange) (v : String) (n : Nat),
        c.time_left = some n →
        patchItemAttr c ("timeLeft", v) = ("timeLeft", toString n)) := by
  refine ⟨?_, ?_, ?_, ?_, ?_, ?_, ?_, ?_, ?_, ?_, ?_, ?_, ?_, ?_, ?_, ?_, ?_, ?_⟩
  · intro cs ts h
    obtain ⟨s2, hrun, _, _, _⟩ := vehicle_run_pass cs ts VehState.init rfl rfl rfl h
    simp [write_vehicle_changes, hrun]
  · intro cs ts h
    have hrun := sale_run_pass cs ts SaleState.init rfl h
    simp [write_sale_changes, hrun]
  · intro fid m l ts h
    unfold write_farm_finances
    induction ts with
    | nil => rfl
    | cons t ts ih =>
      have ht := h t (List.mem_cons_self _ _)
      have hstep : farm_step fid m l t = t := by
        cases t with
        | start tag attrs =>
          by_cases hc : tag = "farm" ∧ parseU8D (attrD attrs "farmId") = fid
          · rw [show farmNoMatchB fid (Token.start tag attrs) = false by
              simp [farmNoMatchB, hc]] at ht
            exact absurd ht (by simp)
          · simp [farm_step, hc]
        | close tag => rfl
        | empty tag attrs => rfl
        | text str => rfl
        | other str => rfl
      simp only [List.map_cons, hstep]
      rw [ih (fun u hu => h u (List.mem_cons_of_mem _ hu))]
  · intro c attrs
    induction attrs with
    | nil => rfl
    | cons a l ih =>
      simp only [patch_vehicle_start, List.map_cons] at ih ⊢
      exact List.cons_eq_cons.mpr ⟨patchVehicleAttr_key c a, ih⟩
  · intro c attrs
    induction attrs with
    | nil => rfl
    | cons a l ih =>
      simp only [patch_item_start, List.map_cons] at ih ⊢
      exact List.cons_eq_cons.mpr ⟨patchItemAttr_key c a, ih⟩
  · intro c a h1 h2 h3 h4 h5
    simp [patchVehicleAttr, h1, h2, h3, h4, h5]
  · intro c a h1 h2 h3 h4 h5 h6
    simp [patchItemAttr, h1, h2, h3, h4, h5, h6]
  · intro c v q h; simp [patchVehicleAttr, h]
  · intro c v q h; simp [patchVehicleAttr, h]
  · intro c v n h; simp [patchVehicleAttr, h]
  · intro c v ps h; simp [patchVehicleAttr, h]
  · intro c v q h; simp [patchVehicleAttr, h]
  · intro c v n h; simp [patchItemAttr, h]
  · intro c v q h; simp [patchItemAttr, h]
  · intro c v q h; simp [patchItemAttr, h]
  · intro c v n h; simp [patchItemAttr, h]
  · intro c v q h; simp [patchItemAttr, h]
  · intro c v n h; simp [patchItemAttr, h]

/-- Witness for C1: frame pass-through of an unmatched document under the
vehicle, sale and farm writers, and an untouched attribute of a matched
element. -/
theorem claim_C1_witness :
    write_vehicle_changes [cFill]
      [.start "vehicles" [], .start "vehicle" [("id", "9"), ("modData", "x&y")],
       .empty "unit" [("index", "0")], .close "vehicle", .close "vehicles"]
      = [.start "vehicles" [], .start "vehicle" [("id", "9"), ("modData", "x&y")],
         .empty "unit" [("index", "0")], .close "vehicle", .close "vehicles"]
    ∧ write_sale_changes [sDel1]
        [.start "sales" [], .start "item" [("price", "5")], .close "item",
         .close "sales"]
        = [.start "sales" [], .start "item" [("price", "5")], .close "item",
           .close "sales"]
    ∧ write_farm_finances 1 (some 7) none
        [.start "farms" [], .start "farm" [("farmId", "2"), ("money", "3")],
         .close "farm", .close "farms"]
        = [.start "farms" [], .start "farm" [("farmId", "2"), ("money", "3")],
           .close "farm", .close "farms"]
    ∧ patchVehicleAttr cDmg ("modSetting", "keep") = ("modSetting", "keep") :=
  ⟨claim_C1.1 [cFill] _ (by decide),
   claim_C1.2.1 [sDel1] _ (by decide),
   claim_C1.2.2.1 1 (some 7) none _ (by decide),
   claim_C1.2.2.2.2.2.1 cDmg ("modSetting", "keep") (by decide) (by decide)
     (by decide) (by decide) (by decide)⟩

end FS25
